import Mathlib

/-!
Verification development for the market-data feed repository (server tick
generator, wire protocol, client message parser, seqlock symbol cache,
latency histogram, client manager, lock-free memory pool).

The definitions below are a shallow embedding of the C++ sources:

* `protocol.h`       : message layout constants, `calculate_checksum`,
                       `get_message_size`, header/payload structures;
* `tick_generator.cpp`: frame serialization (header bytes, payload bytes,
                       appended XOR checksum);
* `parser.cpp`       : `MessageParser` (`append_data`, `compact_buffer`,
                       `parse_one`, `parse_messages`, `validate_checksum`,
                       `check_sequence`, `reset`);
* `cache.cpp`        : `SymbolCache` (seqlock write protocol, the four
                       update operations) and `LatencyTracker`
                       (`record`, `get_stats`, `percentile_from_histogram`);
* `client_manager.cpp`: `ClientManager` (`broadcast`, `send_to_client`,
                       `mark_slow_consumer`, `clear_slow_status`) and the
                       server heartbeat path `ExchangeSimulator::send_heartbeat`;
* `memory_pool.cpp`  : `MemoryPool.deallocate` / `allocate`.

Bytes are modelled as natural numbers below 256 in little-endian lists.
Machine integers are naturals with explicit `% 2 ^ w` where wrap-around is
reachable.  The 8-byte IEEE-754 price fields travel through the wire layer
as uninterpreted 64-bit patterns; inside the symbol cache, where the code
computes midpoints and compares against `0.0`, prices are modelled as exact
rationals (the claims settled here do not depend on rounding).
-/

namespace MDF

/-! ## Little-endian byte strings -/

/-- `natToBytes k v` is the little-endian `k`-byte encoding of `v`
(the low `8 * k` bits), mirroring a `memcpy` of a `k`-byte scalar. -/
def natToBytes : Nat → Nat → List Nat
  | 0, _ => []
  | k + 1, v => v % 256 :: natToBytes k (v / 256)

/-- Little-endian value of a byte list, mirroring a `memcpy` into a scalar. -/
def bytesToNat : List Nat → Nat
  | [] => 0
  | b :: rest => b + 256 * bytesToNat rest

/-- Read the `k`-byte little-endian scalar at byte offset `off` of `l`. -/
def readLE (l : List Nat) (off k : Nat) : Nat :=
  bytesToNat ((l.drop off).take k)

/-- All bytes of `l` are in range. -/
def ByteOk (l : List Nat) : Prop := ∀ b ∈ l, b < 256

theorem natToBytes_length (k v : Nat) : (natToBytes k v).length = k := by
  induction k generalizing v with
  | zero => rfl
  | succ k ih => simp [natToBytes, ih]

theorem natToBytes_byteOk (k v : Nat) : ByteOk (natToBytes k v) := by
  induction k generalizing v with
  | zero => intro b hb; simp [natToBytes] at hb
  | succ k ih =>
    intro b hb
    simp only [natToBytes, List.mem_cons] at hb
    rcases hb with h | h
    · exact h ▸ Nat.mod_lt _ (by norm_num)
    · exact ih _ b h

theorem bytesToNat_natToBytes (k v : Nat) :
    bytesToNat (natToBytes k v) = v % 256 ^ k := by
  induction k generalizing v with
  | zero => simp [natToBytes, bytesToNat, Nat.mod_one]
  | succ k ih =>
    simp only [natToBytes, bytesToNat, ih]
    rw [pow_succ, mul_comm (256 ^ k) 256, Nat.mod_mul]

theorem bytesToNat_natToBytes_of_lt {k v : Nat} (h : v < 256 ^ k) :
    bytesToNat (natToBytes k v) = v := by
  rw [bytesToNat_natToBytes, Nat.mod_eq_of_lt h]

theorem bytesToNat_lt (l : List Nat) (h : ByteOk l) :
    bytesToNat l < 256 ^ l.length := by
  induction l with
  | nil => simp [bytesToNat]
  | cons b rest ih =>
    have hb : b < 256 := h b (List.mem_cons_self b rest)
    have hr := ih fun x hx => h x (List.mem_cons_of_mem b hx)
    simp only [bytesToNat, List.length_cons, pow_succ]
    calc b + 256 * bytesToNat rest
        ≤ 255 + 256 * bytesToNat rest := by omega
      _ < 256 * (bytesToNat rest + 1) := by ring_nf; omega
      _ ≤ 256 * 256 ^ rest.length := by
          have : bytesToNat rest + 1 ≤ 256 ^ rest.length := hr
          exact Nat.mul_le_mul_left 256 this
      _ = 256 ^ rest.length * 256 := by ring

theorem readLE_skip (a l : List Nat) (off k : Nat) :
    readLE (a ++ l) (a.length + off) k = readLE l off k := by
  simp [readLE, List.drop_append]

theorem readLE_head {k v : Nat} (rest : List Nat) (h : v < 256 ^ k) :
    readLE (natToBytes k v ++ rest) 0 k = v := by
  have hlen : (natToBytes k v).length = k := natToBytes_length k v
  simp only [readLE, List.drop_zero]
  rw [List.take_append_eq_append_take, hlen, Nat.sub_self, List.take_zero,
    List.append_nil, List.take_of_length_le (le_of_eq hlen),
    bytesToNat_natToBytes_of_lt h]

/-! ## Wire protocol (`protocol.h`)

Constants and message layout from `protocol.h`; the packed little-endian
structs become explicit byte-list encodings. -/

def HEADER_SIZE : Nat := 16
def TRADE_PAYLOAD_SIZE : Nat := 12
def QUOTE_PAYLOAD_SIZE : Nat := 24
def CHECKSUM_SIZE : Nat := 4
def TRADE_MSG_SIZE : Nat := HEADER_SIZE + TRADE_PAYLOAD_SIZE + CHECKSUM_SIZE
def QUOTE_MSG_SIZE : Nat := HEADER_SIZE + QUOTE_PAYLOAD_SIZE + CHECKSUM_SIZE
def HEARTBEAT_MSG_SIZE : Nat := HEADER_SIZE + CHECKSUM_SIZE
def MAX_SYMBOLS : Nat := 500

/-- `MessageHeader` from `protocol.h`: 16-bit type, 32-bit sequence,
64-bit timestamp, 16-bit symbol id, packed little-endian. -/
@[ext]
structure MessageHeader where
  message_type : Nat
  sequence_number : Nat
  timestamp_ns : Nat
  symbol_id : Nat
deriving DecidableEq

/-- `TradePayload`: the 8-byte price travels as its 64-bit pattern. -/
@[ext]
structure TradePayload where
  price : Nat
  quantity : Nat
deriving DecidableEq

/-- `QuotePayload`: prices as 64-bit patterns, quantities 32-bit. -/
@[ext]
structure QuotePayload where
  bid_price : Nat
  bid_quantity : Nat
  ask_price : Nat
  ask_quantity : Nat
deriving DecidableEq

/-- `get_message_size` from `protocol.h`: the raw 16-bit kind value maps to
the total frame size, unknown kinds to 0. -/
def get_message_size (t : Nat) : Nat :=
  if t = 1 then TRADE_MSG_SIZE
  else if t = 2 then QUOTE_MSG_SIZE
  else if t = 3 then HEARTBEAT_MSG_SIZE
  else 0

/-- `calculate_checksum` from `protocol.h`: XOR of the little-endian 32-bit
words; leftover bytes (fewer than four) are folded in at byte lane `i % 4`. -/
def calculate_checksum : List Nat → Nat
  | b0 :: b1 :: b2 :: b3 :: rest =>
      bytesToNat [b0, b1, b2, b3] ^^^ calculate_checksum rest
  | [b0, b1, b2] => b0 ^^^ (b1 <<< 8) ^^^ (b2 <<< 16)
  | [b0, b1] => b0 ^^^ (b1 <<< 8)
  | [b0] => b0
  | [] => 0

theorem calculate_checksum_lt (l : List Nat) (h : ByteOk l) :
    calculate_checksum l < 2 ^ 32 := by
  induction l using calculate_checksum.induct with
  | case1 b0 b1 b2 b3 rest ih =>
    have hw : bytesToNat [b0, b1, b2, b3] < 2 ^ 32 := by
      have h0 : b0 < 256 := h _ (by simp)
      have h1 : b1 < 256 := h _ (by simp)
      have h2 : b2 < 256 := h _ (by simp)
      have h3 : b3 < 256 := h _ (by simp)
      simp only [bytesToNat]
      omega
    have hr : calculate_checksum rest < 2 ^ 32 :=
      ih fun x hx => h x (by simp [hx])
    simp only [calculate_checksum]
    exact Nat.xor_lt_two_pow hw hr
  | case2 b0 b1 b2 =>
    have h0 : b0 < 256 := h _ (by simp)
    have h1 : b1 < 256 := h _ (by simp)
    have h2 : b2 < 256 := h _ (by simp)
    refine Nat.xor_lt_two_pow (Nat.xor_lt_two_pow ?_ ?_) ?_ <;>
      (try rw [Nat.shiftLeft_eq]) <;> norm_num <;> omega
  | case3 b0 b1 =>
    have h0 : b0 < 256 := h _ (by simp)
    have h1 : b1 < 256 := h _ (by simp)
    refine Nat.xor_lt_two_pow ?_ ?_ <;>
      (try rw [Nat.shiftLeft_eq]) <;> norm_num <;> omega
  | case4 b0 =>
    have h0 : b0 < 256 := h _ (by simp)
    simp only [calculate_checksum]
    omega
  | case5 => simp [calculate_checksum]

/-! ## Frame serialization (`tick_generator.cpp`)

`generate_tick_for_symbol` / `generate_heartbeat` copy the packed header,
then the packed payload, then append the XOR checksum over header+payload. -/

inductive FramePayload
  | trade (p : TradePayload)
  | quote (p : QuotePayload)
  | heartbeat
deriving DecidableEq

structure Frame where
  header : MessageHeader
  payload : FramePayload
deriving DecidableEq

/-- The 16-byte packed header, as written by `memcpy(out_buffer, &header, …)`. -/
def encodeHeader (h : MessageHeader) : List Nat :=
  natToBytes 2 h.message_type ++
    (natToBytes 4 h.sequence_number ++
      (natToBytes 8 h.timestamp_ns ++ natToBytes 2 h.symbol_id))

def encodePayload : FramePayload → List Nat
  | .trade p => natToBytes 8 p.price ++ natToBytes 4 p.quantity
  | .quote p =>
      natToBytes 8 p.bid_price ++
        (natToBytes 4 p.bid_quantity ++
          (natToBytes 8 p.ask_price ++ natToBytes 4 p.ask_quantity))
  | .heartbeat => []

/-- Header and payload bytes, the region the checksum covers. -/
def frameBody (f : Frame) : List Nat :=
  encodeHeader f.header ++ encodePayload f.payload

/-- A complete wire frame: body plus the appended 4-byte XOR checksum. -/
def encodeFrame (f : Frame) : List Nat :=
  frameBody f ++ natToBytes 4 (calculate_checksum (frameBody f))

/-- The kind tag the generator stamps into `message_type` for this payload. -/
def payloadTag : FramePayload → Nat
  | .trade _ => 1
  | .quote _ => 2
  | .heartbeat => 3

def payloadOk : FramePayload → Bool
  | .trade p => decide (p.price < 2 ^ 64) && decide (p.quantity < 2 ^ 32)
  | .quote p => decide (p.bid_price < 2 ^ 64) && decide (p.bid_quantity < 2 ^ 32)
      && decide (p.ask_price < 2 ^ 64) && decide (p.ask_quantity < 2 ^ 32)
  | .heartbeat => true

def headerOk (h : MessageHeader) : Bool :=
  decide (h.message_type < 2 ^ 16) && decide (h.sequence_number < 2 ^ 32)
    && decide (h.timestamp_ns < 2 ^ 64) && decide (h.symbol_id < 2 ^ 16)

/-- A frame the generator can emit: in-range fields and a kind tag that
matches the payload shape. -/
def frameOk (f : Frame) : Bool :=
  headerOk f.header && payloadOk f.payload
    && decide (f.header.message_type = payloadTag f.payload)

theorem encodeHeader_length (h : MessageHeader) :
    (encodeHeader h).length = HEADER_SIZE := by
  simp [encodeHeader, natToBytes_length, HEADER_SIZE]

theorem encodePayload_length (p : FramePayload) :
    (encodePayload p).length = get_message_size (payloadTag p) - 20 := by
  cases p <;> simp [encodePayload, payloadTag, natToBytes_length,
    get_message_size, TRADE_MSG_SIZE, QUOTE_MSG_SIZE, HEARTBEAT_MSG_SIZE,
    HEADER_SIZE, TRADE_PAYLOAD_SIZE, QUOTE_PAYLOAD_SIZE, CHECKSUM_SIZE]

theorem encodeFrame_length (f : Frame) :
    (encodeFrame f).length = get_message_size (payloadTag f.payload) := by
  have h1 := encodeHeader_length f.header
  have h2 := encodePayload_length f.payload
  have : 20 ≤ get_message_size (payloadTag f.payload) := by
    cases f.payload <;> simp [payloadTag, get_message_size, TRADE_MSG_SIZE,
      QUOTE_MSG_SIZE, HEARTBEAT_MSG_SIZE, HEADER_SIZE, TRADE_PAYLOAD_SIZE,
      QUOTE_PAYLOAD_SIZE, CHECKSUM_SIZE]
  simp only [encodeFrame, frameBody, List.length_append, natToBytes_length]
  rw [h1, h2]
  simp only [HEADER_SIZE]
  omega

/-! ## Message parser (`parser.cpp`)

`MessageParser` state: a growable byte buffer with read/write cursors
(`write_pos_` is `buf.length` here, `buffer_.size()` is `cap`), the expected
sequence number, and the statistics counters.  Callback invocations are
recorded as `Event`s in emission order. -/

inductive ParseResult
  | SUCCESS
  | NEED_MORE_DATA
  | INVALID_MESSAGE
  | CHECKSUM_ERROR
  | SEQUENCE_GAP
deriving DecidableEq

inductive Event
  | trade (h : MessageHeader) (p : TradePayload)
  | quote (h : MessageHeader) (p : QuotePayload)
  | heartbeat (h : MessageHeader)
  | gap (expected received : Nat)
deriving DecidableEq

@[ext]
structure ParserState where
  buf : List Nat
  cap : Nat
  readPos : Nat
  expectedSeq : Nat
  firstMessage : Bool
  messagesParsed : Nat
  tradesParsed : Nat
  quotesParsed : Nat
  checksumErrors : Nat
  sequenceGaps : Nat
  malformed : Nat
deriving DecidableEq

def INITIAL_BUFFER_SIZE : Nat := 4 * 1024 * 1024
def MAX_BUFFER_SIZE : Nat := 16 * 1024 * 1024

/-- A freshly constructed `MessageParser`. -/
def initParser : ParserState :=
  { buf := [], cap := INITIAL_BUFFER_SIZE, readPos := 0, expectedSeq := 0,
    firstMessage := true, messagesParsed := 0, tradesParsed := 0,
    quotesParsed := 0, checksumErrors := 0, sequenceGaps := 0, malformed := 0 }

/-- `MessageParser::compact_buffer`: move `[read_pos_, write_pos_)` to the
front of the buffer. -/
def compact_buffer (s : ParserState) : ParserState :=
  if s.readPos = 0 then s
  else { s with buf := s.buf.drop s.readPos, readPos := 0 }

/-- The copy-or-grow tail of `MessageParser::append_data`, after the
optional compaction: grow by one doubling (capped at `MAX_BUFFER_SIZE`)
when the tail space is short; at the hard cap the ingest is dropped and
`malformed_messages_` bumped.  After a successful growth the C++ copies
unconditionally, which the model mirrors. -/
def append_grow (s1 : ParserState) (data : List Nat) : ParserState :=
  if s1.cap - s1.buf.length < data.length then
    if min (s1.cap * 2) MAX_BUFFER_SIZE ≤ s1.cap then
      { s1 with malformed := s1.malformed + 1 }
    else { s1 with cap := min (s1.cap * 2) MAX_BUFFER_SIZE, buf := s1.buf ++ data }
  else { s1 with buf := s1.buf ++ data }

/-- `MessageParser::append_data`: nothing to do on an empty chunk;
otherwise compact first when the tail space is short, then copy (growing
if needed). -/
def append_data (s : ParserState) (data : List Nat) : ParserState :=
  if data.length = 0 then s
  else
    append_grow (if s.cap - s.buf.length < data.length then compact_buffer s else s)
      data

/-- The header the parser's `reinterpret_cast` reads at `read_pos_`. -/
def decodeHeaderAt (l : List Nat) (r : Nat) : MessageHeader :=
  { message_type := readLE l r 2, sequence_number := readLE l (r + 2) 4,
    timestamp_ns := readLE l (r + 6) 8, symbol_id := readLE l (r + 14) 2 }

def decodeTradeAt (l : List Nat) (r : Nat) : TradePayload :=
  { price := readLE l (r + 16) 8, quantity := readLE l (r + 24) 4 }

def decodeQuoteAt (l : List Nat) (r : Nat) : QuotePayload :=
  { bid_price := readLE l (r + 16) 8, bid_quantity := readLE l (r + 24) 4,
    ask_price := readLE l (r + 28) 8, ask_quantity := readLE l (r + 36) 4 }

/-- `MessageParser::validate_checksum`: recompute over the first
`msg_len - 4` bytes and compare with the trailing 4-byte word. -/
def validate_checksum (data : List Nat) (msg_len : Nat) : Bool :=
  if msg_len < CHECKSUM_SIZE then false
  else
    decide (calculate_checksum (data.take (msg_len - CHECKSUM_SIZE)) =
      readLE data (msg_len - CHECKSUM_SIZE) 4)

/-- `MessageParser::check_sequence`: first frame adopts `seq + 1`; later
frames compare against `expected_sequence_`, reporting a gap on mismatch.
`expected_sequence_` is a `uint32_t`, so the increment wraps at `2 ^ 32`.
Returns (in-order?, new state, gap callback invocations). -/
def check_sequence (s : ParserState) (seq : Nat) : Bool × ParserState × List Event :=
  if s.firstMessage then
    (true, { s with firstMessage := false, expectedSeq := (seq + 1) % 2 ^ 32 }, [])
  else if seq ≠ s.expectedSeq then
    (false,
      { s with sequenceGaps := s.sequenceGaps + 1, expectedSeq := (seq + 1) % 2 ^ 32 },
      [Event.gap s.expectedSeq seq])
  else
    (true, { s with expectedSeq := (seq + 1) % 2 ^ 32 }, [])

/-- The kind-specific callback dispatch in `parse_one`'s `switch`:
counter bump and callback invocation for the frame at `read_pos_`. -/
def dispatch_frame (s1 : ParserState) (buf : List Nat) (r : Nat)
    (header : MessageHeader) : ParserState × List Event :=
  if header.message_type = 1 then
    ({ s1 with tradesParsed := s1.tradesParsed + 1 },
      [Event.trade header (decodeTradeAt buf r)])
  else if header.message_type = 2 then
    ({ s1 with quotesParsed := s1.quotesParsed + 1 },
      [Event.quote header (decodeQuoteAt buf r)])
  else
    (s1, [Event.heartbeat header])

/-- The tail of `parse_one` once all validation has passed: sequence check,
dispatch, counter bump, cursor advance.  (The C++ locals are inlined as
repeated projections.) -/
def accept_frame (s : ParserState) (header : MessageHeader) (msg_size : Nat) :
    ParseResult × ParserState × List Event :=
  (if (check_sequence s header.sequence_number).1 then .SUCCESS else .SEQUENCE_GAP,
   { (dispatch_frame (check_sequence s header.sequence_number).2.1 s.buf s.readPos header).1 with
       messagesParsed :=
         (dispatch_frame (check_sequence s header.sequence_number).2.1 s.buf s.readPos header).1.messagesParsed + 1,
       readPos :=
         (dispatch_frame (check_sequence s header.sequence_number).2.1 s.buf s.readPos header).1.readPos + msg_size },
   (check_sequence s header.sequence_number).2.2 ++
     (dispatch_frame (check_sequence s header.sequence_number).2.1 s.buf s.readPos header).2)

/-- `MessageParser::parse_one`, with callback invocations returned as events
(gap events precede the kind-specific callback, as in the C++ control flow).
`available` and `msg_size` are inlined; `header->message_type` is the
16-bit little-endian read at `read_pos_`. -/
def parse_one (s : ParserState) : ParseResult × ParserState × List Event :=
  if s.buf.length - s.readPos < HEADER_SIZE then (.NEED_MORE_DATA, s, [])
  else if get_message_size (readLE s.buf s.readPos 2) = 0 then
    (.INVALID_MESSAGE,
      { s with readPos := s.readPos + 1, malformed := s.malformed + 1 }, [])
  else if s.buf.length - s.readPos < get_message_size (readLE s.buf s.readPos 2) then
    (.NEED_MORE_DATA, s, [])
  else if QUOTE_MSG_SIZE < get_message_size (readLE s.buf s.readPos 2) then
    (.INVALID_MESSAGE,
      { s with readPos := s.readPos + 1, malformed := s.malformed + 1 }, [])
  else if ¬ validate_checksum (s.buf.drop s.readPos)
      (get_message_size (readLE s.buf s.readPos 2)) then
    (.CHECKSUM_ERROR,
      { s with readPos := s.readPos + 1, checksumErrors := s.checksumErrors + 1 }, [])
  else accept_frame s (decodeHeaderAt s.buf s.readPos)
    (get_message_size (readLE s.buf s.readPos 2))

theorem check_sequence_buf (s : ParserState) (q : Nat) :
    (check_sequence s q).2.1.buf = s.buf ∧ (check_sequence s q).2.1.readPos = s.readPos := by
  unfold check_sequence
  split
  · exact ⟨rfl, rfl⟩
  · split
    · exact ⟨rfl, rfl⟩
    · exact ⟨rfl, rfl⟩

theorem dispatch_frame_buf (s1 : ParserState) (buf : List Nat) (r : Nat)
    (header : MessageHeader) :
    (dispatch_frame s1 buf r header).1.buf = s1.buf ∧
      (dispatch_frame s1 buf r header).1.readPos = s1.readPos := by
  unfold dispatch_frame
  split
  · exact ⟨rfl, rfl⟩
  · split
    · exact ⟨rfl, rfl⟩
    · exact ⟨rfl, rfl⟩

theorem accept_frame_buf (s : ParserState) (header : MessageHeader) (msg_size : Nat) :
    (accept_frame s header msg_size).2.1.buf = s.buf ∧
      (accept_frame s header msg_size).2.1.readPos = s.readPos + msg_size := by
  have h1 := check_sequence_buf s header.sequence_number
  have h2 := dispatch_frame_buf (check_sequence s header.sequence_number).2.1
    s.buf s.readPos header
  unfold accept_frame
  constructor
  · show (dispatch_frame (check_sequence s header.sequence_number).2.1
      s.buf s.readPos header).1.buf = s.buf
    rw [h2.1, h1.1]
  · show (dispatch_frame (check_sequence s header.sequence_number).2.1
      s.buf s.readPos header).1.readPos + msg_size = s.readPos + msg_size
    rw [h2.2, h1.2]

theorem parse_one_buf (s : ParserState) : (parse_one s).2.1.buf = s.buf := by
  unfold parse_one
  split
  · rfl
  · split
    · rfl
    · split
      · rfl
      · split
        · rfl
        · split
          · rfl
          · exact (accept_frame_buf s _ _).1

theorem parse_one_progress (s : ParserState)
    (h : (parse_one s).1 ≠ .NEED_MORE_DATA) :
    (parse_one s).2.1.buf.length - (parse_one s).2.1.readPos
      < s.buf.length - s.readPos := by
  have h16 : HEADER_SIZE = 16 := rfl
  by_cases h1 : s.buf.length - s.readPos < HEADER_SIZE
  · simp [parse_one, h1] at h
  · by_cases h2 : get_message_size (readLE s.buf s.readPos 2) = 0
    · simp only [parse_one, if_neg h1, if_pos h2]
      omega
    · by_cases h3 : s.buf.length - s.readPos < get_message_size (readLE s.buf s.readPos 2)
      · simp [parse_one, if_neg h1, if_neg h2, if_pos h3] at h
      · by_cases h4 : QUOTE_MSG_SIZE < get_message_size (readLE s.buf s.readPos 2)
        · simp only [parse_one, if_neg h1, if_neg h2, if_neg h3, if_pos h4]
          omega
        · by_cases h5 : ¬ validate_checksum (s.buf.drop s.readPos)
              (get_message_size (readLE s.buf s.readPos 2)) = true
          · simp only [parse_one, if_neg h1, if_neg h2, if_neg h3, if_neg h4, if_pos h5]
            omega
          · simp only [parse_one, if_neg h1, if_neg h2, if_neg h3, if_neg h4, if_neg h5]
            have hb := accept_frame_buf s (decodeHeaderAt s.buf s.readPos)
              (get_message_size (readLE s.buf s.readPos 2))
            rw [hb.1, hb.2]
            omega

/-- The `while (true)` loop body of `MessageParser::parse_messages`:
iterate `parse_one` until `NEED_MORE_DATA`, counting `SUCCESS` and
`SEQUENCE_GAP` results and accumulating the callback invocations. -/
def countsMessage : ParseResult → Bool
  | .SUCCESS => true
  | .SEQUENCE_GAP => true
  | _ => false

def parse_messages_aux (s : ParserState) (acc : List Event) (count : Nat) :
    ParserState × List Event × Nat :=
  let res := parse_one s
  if h : res.1 = .NEED_MORE_DATA then (res.2.1, acc ++ res.2.2, count)
  else
    parse_messages_aux res.2.1 (acc ++ res.2.2)
      (if countsMessage res.1 then count + 1 else count)
termination_by s.buf.length - s.readPos
decreasing_by exact parse_one_progress s h

/-- `MessageParser::parse_messages`; also returns the events emitted. -/
def parse_messages (s : ParserState) : ParserState × List Event × Nat :=
  parse_messages_aux s [] 0

/-- One consumer iteration on one received chunk: `append_data` then
`parse_messages` (`FeedHandler::process_data`). -/
def feedChunk (s : ParserState) (chunk : List Nat) : ParserState × List Event × Nat :=
  parse_messages (append_data s chunk)

/-- Feed a list of chunks in order, accumulating events and counts. -/
def feedChunks (s : ParserState) : List (List Nat) → ParserState × List Event × Nat
  | [] => (s, [], 0)
  | c :: cs =>
      let r1 := feedChunk s c
      let r2 := feedChunks r1.1 cs
      (r2.1, r1.2.1 ++ r2.2.1, r1.2.2 + r2.2.2)

/-! ## Reading fields back out of an encoded frame -/

theorem byteOk_append {a b : List Nat} (ha : ByteOk a) (hb : ByteOk b) :
    ByteOk (a ++ b) := by
  intro x hx
  rcases List.mem_append.mp hx with h | h
  · exact ha x h
  · exact hb x h

theorem readLE_shift (l : List Nat) (r off k : Nat) :
    readLE l (r + off) k = readLE (l.drop r) off k := by
  unfold readLE
  rw [List.drop_drop]

theorem readLE_shift0 (l : List Nat) (r k : Nat) :
    readLE l r k = readLE (l.drop r) 0 k := by
  simpa using readLE_shift l r 0 k

theorem readLE_pastList (a rest : List Nat) (off sub k : Nat)
    (h : off = a.length + sub) :
    readLE (a ++ rest) off k = readLE rest sub k := by
  subst h
  exact readLE_skip a rest sub k

theorem take_append_exact (a b : List Nat) (n : Nat) (h : n = a.length) :
    (a ++ b).take n = a := by
  subst h
  exact List.take_left a b

theorem frameOk_bounds (f : Frame) (hok : frameOk f = true) :
    f.header.message_type < 2 ^ 16 ∧ f.header.sequence_number < 2 ^ 32 ∧
    f.header.timestamp_ns < 2 ^ 64 ∧ f.header.symbol_id < 2 ^ 16 ∧
    f.header.message_type = payloadTag f.payload := by
  simp only [frameOk, headerOk, Bool.and_eq_true, decide_eq_true_eq] at hok
  tauto

theorem frameBody_byteOk (f : Frame) : ByteOk (frameBody f) := by
  unfold frameBody encodeHeader
  refine byteOk_append (byteOk_append (natToBytes_byteOk _ _)
    (byteOk_append (natToBytes_byteOk _ _)
      (byteOk_append (natToBytes_byteOk _ _) (natToBytes_byteOk _ _)))) ?_
  cases hp : f.payload with
  | trade p =>
    exact byteOk_append (natToBytes_byteOk _ _) (natToBytes_byteOk _ _)
  | quote p =>
    exact byteOk_append (natToBytes_byteOk _ _) (byteOk_append (natToBytes_byteOk _ _)
      (byteOk_append (natToBytes_byteOk _ _) (natToBytes_byteOk _ _)))
  | heartbeat =>
    intro x hx
    simp [encodePayload] at hx

theorem frameBody_length (f : Frame) :
    (frameBody f).length = get_message_size (payloadTag f.payload) - 4 := by
  have h1 := encodeHeader_length f.header
  have h2 := encodePayload_length f.payload
  have h3 : 20 ≤ get_message_size (payloadTag f.payload) := by
    cases f.payload <;> simp [payloadTag, get_message_size, TRADE_MSG_SIZE,
      QUOTE_MSG_SIZE, HEARTBEAT_MSG_SIZE, HEADER_SIZE, TRADE_PAYLOAD_SIZE,
      QUOTE_PAYLOAD_SIZE, CHECKSUM_SIZE]
  simp only [frameBody, List.length_append]
  rw [h1, h2]
  simp only [HEADER_SIZE]
  omega

/-- The fully right-nested segment view of an encoded frame with a tail. -/
theorem encodeFrame_flat (f : Frame) (rest : List Nat) :
    encodeFrame f ++ rest =
      natToBytes 2 f.header.message_type ++
        (natToBytes 4 f.header.sequence_number ++
          (natToBytes 8 f.header.timestamp_ns ++
            (natToBytes 2 f.header.symbol_id ++
              (encodePayload f.payload ++
                (natToBytes 4 (calculate_checksum (frameBody f)) ++ rest))))) := by
  simp [encodeFrame, frameBody, encodeHeader, List.append_assoc]

theorem decodeHeaderAt_frame (l : List Nat) (r : Nat) (f : Frame) (rest : List Nat)
    (hok : frameOk f = true) (hbuf : l.drop r = encodeFrame f ++ rest) :
    decodeHeaderAt l r = f.header := by
  obtain ⟨h1, h2, h3, h4, -⟩ := frameOk_bounds f hok
  have hflat := encodeFrame_flat f rest
  ext
  · show readLE l r 2 = f.header.message_type
    rw [readLE_shift0, hbuf, hflat]
    exact readLE_head _ (by norm_num at h1 ⊢; exact h1)
  · show readLE l (r + 2) 4 = f.header.sequence_number
    rw [readLE_shift, hbuf, hflat,
      readLE_pastList _ _ 2 0 4 (by simp [natToBytes_length])]
    exact readLE_head _ (by norm_num at h2 ⊢; exact h2)
  · show readLE l (r + 6) 8 = f.header.timestamp_ns
    rw [readLE_shift, hbuf, hflat,
      readLE_pastList _ _ 6 4 8 (by simp [natToBytes_length]),
      readLE_pastList _ _ 4 0 8 (by simp [natToBytes_length])]
    exact readLE_head _ (by norm_num at h3 ⊢; exact h3)
  · show readLE l (r + 14) 2 = f.header.symbol_id
    rw [readLE_shift, hbuf, hflat,
      readLE_pastList _ _ 14 12 2 (by simp [natToBytes_length]),
      readLE_pastList _ _ 12 8 2 (by simp [natToBytes_length]),
      readLE_pastList _ _ 8 0 2 (by simp [natToBytes_length])]
    exact readLE_head _ (by norm_num at h4 ⊢; exact h4)

theorem payloadOk_trade (f : Frame) (p : TradePayload) (hok : frameOk f = true)
    (hp : f.payload = .trade p) : p.price < 2 ^ 64 ∧ p.quantity < 2 ^ 32 := by
  simp only [frameOk, payloadOk, hp, Bool.and_eq_true, decide_eq_true_eq] at hok
  tauto

theorem payloadOk_quote (f : Frame) (p : QuotePayload) (hok : frameOk f = true)
    (hp : f.payload = .quote p) :
    p.bid_price < 2 ^ 64 ∧ p.bid_quantity < 2 ^ 32 ∧
      p.ask_price < 2 ^ 64 ∧ p.ask_quantity < 2 ^ 32 := by
  simp only [frameOk, payloadOk, hp, Bool.and_eq_true, decide_eq_true_eq] at hok
  tauto

theorem encodeFrame_flat_trade (f : Frame) (p : TradePayload)
    (hp : f.payload = .trade p) (rest : List Nat) :
    encodeFrame f ++ rest =
      natToBytes 2 f.header.message_type ++
        (natToBytes 4 f.header.sequence_number ++
          (natToBytes 8 f.header.timestamp_ns ++
            (natToBytes 2 f.header.symbol_id ++
              (natToBytes 8 p.price ++
                (natToBytes 4 p.quantity ++
                  (natToBytes 4 (calculate_checksum (frameBody f)) ++ rest)))))) := by
  conv_lhs => rw [encodeFrame_flat f rest, hp]
  simp [encodePayload, List.append_assoc]

theorem encodeFrame_flat_quote (f : Frame) (p : QuotePayload)
    (hp : f.payload = .quote p) (rest : List Nat) :
    encodeFrame f ++ rest =
      natToBytes 2 f.header.message_type ++
        (natToBytes 4 f.header.sequence_number ++
          (natToBytes 8 f.header.timestamp_ns ++
            (natToBytes 2 f.header.symbol_id ++
              (natToBytes 8 p.bid_price ++
                (natToBytes 4 p.bid_quantity ++
                  (natToBytes 8 p.ask_price ++
                    (natToBytes 4 p.ask_quantity ++
                      (natToBytes 4 (calculate_checksum (frameBody f)) ++ rest)))))))) := by
  conv_lhs => rw [encodeFrame_flat f rest, hp]
  simp [encodePayload, List.append_assoc]

theorem decodeTradeAt_frame (l : List Nat) (r : Nat) (f : Frame) (p : TradePayload)
    (rest : List Nat) (hok : frameOk f = true) (hp : f.payload = .trade p)
    (hbuf : l.drop r = encodeFrame f ++ rest) :
    decodeTradeAt l r = p := by
  obtain ⟨hpr, hq⟩ := payloadOk_trade f p hok hp
  have hflat := encodeFrame_flat_trade f p hp rest
  ext
  · show readLE l (r + 16) 8 = p.price
    rw [readLE_shift, hbuf, hflat,
      readLE_pastList _ _ 16 14 8 (by simp [natToBytes_length]),
      readLE_pastList _ _ 14 10 8 (by simp [natToBytes_length]),
      readLE_pastList _ _ 10 2 8 (by simp [natToBytes_length]),
      readLE_pastList _ _ 2 0 8 (by simp [natToBytes_length])]
    exact readLE_head _ (by norm_num at hpr ⊢; exact hpr)
  · show readLE l (r + 24) 4 = p.quantity
    rw [readLE_shift, hbuf, hflat,
      readLE_pastList _ _ 24 22 4 (by simp [natToBytes_length]),
      readLE_pastList _ _ 22 18 4 (by simp [natToBytes_length]),
      readLE_pastList _ _ 18 10 4 (by simp [natToBytes_length]),
      readLE_pastList _ _ 10 8 4 (by simp [natToBytes_length]),
      readLE_pastList _ _ 8 0 4 (by simp [natToBytes_length])]
    exact readLE_head _ (by norm_num at hq ⊢; exact hq)

theorem decodeQuoteAt_frame (l : List Nat) (r : Nat) (f : Frame) (p : QuotePayload)
    (rest : List Nat) (hok : frameOk f = true) (hp : f.payload = .quote p)
    (hbuf : l.drop r = encodeFrame f ++ rest) :
    decodeQuoteAt l r = p := by
  obtain ⟨hbp, hbq, hap, haq⟩ := payloadOk_quote f p hok hp
  have hflat := encodeFrame_flat_quote f p hp rest
  ext
  · show readLE l (r + 16) 8 = p.bid_price
    rw [readLE_shift, hbuf, hflat,
      readLE_pastList _ _ 16 14 8 (by simp [natToBytes_length]),
      readLE_pastList _ _ 14 10 8 (by simp [natToBytes_length]),
      readLE_pastList _ _ 10 2 8 (by simp [natToBytes_length]),
      readLE_pastList _ _ 2 0 8 (by simp [natToBytes_length])]
    exact readLE_head _ (by norm_num at hbp ⊢; exact hbp)
  · show readLE l (r + 24) 4 = p.bid_quantity
    rw [readLE_shift, hbuf, hflat,
      readLE_pastList _ _ 24 22 4 (by simp [natToBytes_length]),
      readLE_pastList _ _ 22 18 4 (by simp [natToBytes_length]),
      readLE_pastList _ _ 18 10 4 (by simp [natToBytes_length]),
      readLE_pastList _ _ 10 8 4 (by simp [natToBytes_length]),
      readLE_pastList _ _ 8 0 4 (by simp [natToBytes_length])]
    exact readLE_head _ (by norm_num at hbq ⊢; exact hbq)
  · show readLE l (r + 28) 8 = p.ask_price
    rw [readLE_shift, hbuf, hflat,
      readLE_pastList _ _ 28 26 8 (by simp [natToBytes_length]),
      readLE_pastList _ _ 26 22 8 (by simp [natToBytes_length]),
      readLE_pastList _ _ 22 14 8 (by simp [natToBytes_length]),
      readLE_pastList _ _ 14 12 8 (by simp [natToBytes_length]),
      readLE_pastList _ _ 12 4 8 (by simp [natToBytes_length]),
      readLE_pastList _ _ 4 0 8 (by simp [natToBytes_length])]
    exact readLE_head _ (by norm_num at hap ⊢; exact hap)
  · show readLE l (r + 36) 4 = p.ask_quantity
    rw [readLE_shift, hbuf, hflat,
      readLE_pastList _ _ 36 34 4 (by simp [natToBytes_length]),
      readLE_pastList _ _ 34 30 4 (by simp [natToBytes_length]),
      readLE_pastList _ _ 30 22 4 (by simp [natToBytes_length]),
      readLE_pastList _ _ 22 20 4 (by simp [natToBytes_length]),
      readLE_pastList _ _ 20 12 4 (by simp [natToBytes_length]),
      readLE_pastList _ _ 12 8 4 (by simp [natToBytes_length]),
      readLE_pastList _ _ 8 0 4 (by simp [natToBytes_length])]
    exact readLE_head _ (by norm_num at haq ⊢; exact haq)

theorem validate_checksum_frame (f : Frame) (rest : List Nat) :
    validate_checksum (encodeFrame f ++ rest)
      (get_message_size (payloadTag f.payload)) = true := by
  have h20 : 20 ≤ get_message_size (payloadTag f.payload) := by
    cases f.payload <;> simp [payloadTag, get_message_size, TRADE_MSG_SIZE,
      QUOTE_MSG_SIZE, HEARTBEAT_MSG_SIZE, HEADER_SIZE, TRADE_PAYLOAD_SIZE,
      QUOTE_PAYLOAD_SIZE, CHECKSUM_SIZE]
  have hbody := frameBody_length f
  have hsplit : encodeFrame f ++ rest =
      frameBody f ++ (natToBytes 4 (calculate_checksum (frameBody f)) ++ rest) := by
    simp [encodeFrame, List.append_assoc]
  have hck : calculate_checksum (frameBody f) < 256 ^ 4 := by
    have := calculate_checksum_lt (frameBody f) (frameBody_byteOk f)
    norm_num at this ⊢
    exact this
  unfold validate_checksum
  rw [if_neg (by simp only [CHECKSUM_SIZE]; omega)]
  rw [hsplit, take_append_exact _ _ _ (by simp only [CHECKSUM_SIZE]; omega),
    readLE_pastList _ _ _ 0 4 (by simp only [CHECKSUM_SIZE]; omega),
    readLE_head _ hck]
  simp

/-- The callback a well-formed frame triggers. -/
def frameEvent (f : Frame) : Event :=
  match f.payload with
  | .trade p => .trade f.header p
  | .quote p => .quote f.header p
  | .heartbeat => .heartbeat f.header

/-- Parsing with a complete well-formed frame at `read_pos_` accepts it:
the cursor advances over the frame, `expected_sequence_` becomes
`seq + 1 (mod 2^32)`, counters update, the kind-specific callback fires with
the decoded header/payload, preceded by a gap callback iff a non-first frame
arrives out of order. -/
theorem parse_one_frame (s : ParserState) (f : Frame) (rest : List Nat)
    (hok : frameOk f = true)
    (hbuf : s.buf.drop s.readPos = encodeFrame f ++ rest) :
    parse_one s =
      (if s.firstMessage = false ∧ f.header.sequence_number ≠ s.expectedSeq
         then ParseResult.SEQUENCE_GAP else ParseResult.SUCCESS,
       { s with
           readPos := s.readPos + get_message_size (payloadTag f.payload),
           expectedSeq := (f.header.sequence_number + 1) % 2 ^ 32,
           firstMessage := false,
           messagesParsed := s.messagesParsed + 1,
           tradesParsed := s.tradesParsed + (if payloadTag f.payload = 1 then 1 else 0),
           quotesParsed := s.quotesParsed + (if payloadTag f.payload = 2 then 1 else 0),
           sequenceGaps := s.sequenceGaps +
             (if s.firstMessage = false ∧ f.header.sequence_number ≠ s.expectedSeq
              then 1 else 0) },
       (if s.firstMessage = false ∧ f.header.sequence_number ≠ s.expectedSeq
          then [Event.gap s.expectedSeq f.header.sequence_number] else []) ++
         [frameEvent f]) := by
  have hHdr : decodeHeaderAt s.buf s.readPos = f.header :=
    decodeHeaderAt_frame s.buf s.readPos f rest hok hbuf
  have htagOk := (frameOk_bounds f hok).2.2.2.2
  have htag : readLE s.buf s.readPos 2 = payloadTag f.payload := by
    have : (decodeHeaderAt s.buf s.readPos).message_type = f.header.message_type :=
      congrArg MessageHeader.message_type hHdr
    simpa [decodeHeaderAt, htagOk] using this
  have hms : 20 ≤ get_message_size (payloadTag f.payload) ∧
      get_message_size (payloadTag f.payload) ≤ 44 := by
    cases f.payload <;> simp [payloadTag, get_message_size, TRADE_MSG_SIZE,
      QUOTE_MSG_SIZE, HEARTBEAT_MSG_SIZE, HEADER_SIZE, TRADE_PAYLOAD_SIZE,
      QUOTE_PAYLOAD_SIZE, CHECKSUM_SIZE]
  have havail : s.buf.length - s.readPos =
      get_message_size (payloadTag f.payload) + rest.length := by
    have h := congrArg List.length hbuf
    simpa [List.length_drop, encodeFrame_length] using h
  have hQ : QUOTE_MSG_SIZE = 44 := rfl
  have hH : HEADER_SIZE = 16 := rfl
  have hval : validate_checksum (s.buf.drop s.readPos)
      (get_message_size (payloadTag f.payload)) = true := by
    rw [hbuf]
    exact validate_checksum_frame f rest
  unfold parse_one
  rw [htag, hHdr,
    if_neg (by omega),
    if_neg (by omega),
    if_neg (by omega),
    if_neg (by omega),
    if_neg (by simp [hval])]
  unfold accept_frame check_sequence dispatch_frame
  cases hfm : s.firstMessage with
  | true =>
    simp only [hfm, if_pos rfl, if_true]
    rcases hpl : f.payload with p | p | _
    · have hd := decodeTradeAt_frame s.buf s.readPos f p rest hok hpl hbuf
      have : f.header.message_type = 1 := by rw [htagOk, hpl]; rfl
      simp [this, hd, frameEvent, hpl, payloadTag]
    · have hd := decodeQuoteAt_frame s.buf s.readPos f p rest hok hpl hbuf
      have : f.header.message_type = 2 := by rw [htagOk, hpl]; rfl
      simp [this, hd, frameEvent, hpl, payloadTag]
    · have : f.header.message_type = 3 := by rw [htagOk, hpl]; rfl
      simp [this, frameEvent, hpl, payloadTag]
  | false =>
    by_cases hseq : f.header.sequence_number = s.expectedSeq
    · rcases hpl : f.payload with p | p | _
      · have hd := decodeTradeAt_frame s.buf s.readPos f p rest hok hpl hbuf
        have : f.header.message_type = 1 := by rw [htagOk, hpl]; rfl
        simp [this, hd, frameEvent, hpl, hseq, hfm, payloadTag]
      · have hd := decodeQuoteAt_frame s.buf s.readPos f p rest hok hpl hbuf
        have : f.header.message_type = 2 := by rw [htagOk, hpl]; rfl
        simp [this, hd, frameEvent, hpl, hseq, hfm, payloadTag]
      · have : f.header.message_type = 3 := by rw [htagOk, hpl]; rfl
        simp [this, frameEvent, hpl, hseq, hfm, payloadTag]
    · rcases hpl : f.payload with p | p | _
      · have hd := decodeTradeAt_frame s.buf s.readPos f p rest hok hpl hbuf
        have : f.header.message_type = 1 := by rw [htagOk, hpl]; rfl
        simp [this, hd, frameEvent, hpl, hseq, hfm, payloadTag]
      · have hd := decodeQuoteAt_frame s.buf s.readPos f p rest hok hpl hbuf
        have : f.header.message_type = 2 := by rw [htagOk, hpl]; rfl
        simp [this, hd, frameEvent, hpl, hseq, hfm, payloadTag]
      · have : f.header.message_type = 3 := by rw [htagOk, hpl]; rfl
        simp [this, frameEvent, hpl, hseq, hfm, payloadTag]

/-- The unparsed tail is too short to act on: shorter than a header, or a
strict front fragment of some well-formed frame. -/
def Stall (rest : List Nat) : Prop :=
  rest.length < HEADER_SIZE ∨
    ∃ f : Frame, frameOk f = true ∧
      rest.length < get_message_size (payloadTag f.payload) ∧
      rest = (encodeFrame f).take rest.length

theorem readLE_take (l : List Nat) (m k : Nat) (h : k ≤ m) :
    readLE (l.take m) 0 k = readLE l 0 k := by
  simp [readLE, List.take_take, Nat.min_eq_left h]

theorem payloadTag_lt (p : FramePayload) : payloadTag p < 256 ^ 2 := by
  cases p <;> simp [payloadTag]

theorem readLE_encodeFrame_tag (f : Frame) (hok : frameOk f = true) :
    readLE (encodeFrame f) 0 2 = f.header.message_type := by
  have hb := (frameOk_bounds f hok).1
  have hflat : encodeFrame f =
      natToBytes 2 f.header.message_type ++
        (natToBytes 4 f.header.sequence_number ++
          (natToBytes 8 f.header.timestamp_ns ++
            (natToBytes 2 f.header.symbol_id ++
              (encodePayload f.payload ++
                (natToBytes 4 (calculate_checksum (frameBody f)) ++ []))))) := by
    simpa using encodeFrame_flat f []
  rw [hflat]
  exact readLE_head _ (by norm_num at hb ⊢; exact hb)

/-- With only a stalled tail at `read_pos_`, `parse_one` asks for more data
and leaves the state untouched. -/
theorem parse_one_stall (s : ParserState) (h : Stall (s.buf.drop s.readPos)) :
    parse_one s = (.NEED_MORE_DATA, s, []) := by
  have hlen : (s.buf.drop s.readPos).length = s.buf.length - s.readPos :=
    List.length_drop _ _
  rcases h with h | ⟨f, hok, hfront, hpre⟩
  · unfold parse_one
    rw [if_pos (by rw [← hlen]; exact h)]
  · by_cases h16 : (s.buf.drop s.readPos).length < HEADER_SIZE
    · unfold parse_one
      rw [if_pos (by rw [← hlen]; exact h16)]
    · have h16' : 2 ≤ (s.buf.drop s.readPos).length := by
        simp only [HEADER_SIZE] at h16
        omega
      have htagOk := (frameOk_bounds f hok).2.2.2.2
      have htag : readLE s.buf s.readPos 2 = payloadTag f.payload := by
        rw [readLE_shift0, hpre, readLE_take _ _ _ h16',
          readLE_encodeFrame_tag f hok, htagOk]
      have hms : get_message_size (payloadTag f.payload) ≠ 0 := by
        cases f.payload <;> simp [payloadTag, get_message_size, TRADE_MSG_SIZE,
          QUOTE_MSG_SIZE, HEARTBEAT_MSG_SIZE, HEADER_SIZE, TRADE_PAYLOAD_SIZE,
          QUOTE_PAYLOAD_SIZE, CHECKSUM_SIZE]
      unfold parse_one
      rw [if_neg (by rw [hlen] at h16; exact h16), htag, if_neg hms,
        if_pos (by rw [← hlen]; exact hfront)]

/-! ## Frame streams -/

/-- Concatenated wire bytes of a list of frames. -/
def framesBytes (fs : List Frame) : List Nat := (fs.map encodeFrame).flatten

/-- The callback sequence a list of in-order frames triggers. -/
def frameEvents (fs : List Frame) : List Event := fs.map frameEvent

/-- The sequence numbers of `fs` are consecutive (mod `2 ^ 32`) starting
from the parser expectation `e` (`none` = parser still on its first
message, which adopts any starting sequence). -/
def chainFromB : Option Nat → List Frame → Bool
  | _, [] => true
  | none, f :: fs =>
      chainFromB (some ((f.header.sequence_number + 1) % 2 ^ 32)) fs
  | some e, f :: fs =>
      decide (f.header.sequence_number = e) &&
        chainFromB (some ((f.header.sequence_number + 1) % 2 ^ 32)) fs

/-- The parser expectation after accepting `fs`, starting from `e`. -/
def expectedAfter (e : Nat) : List Frame → Nat
  | [] => e
  | f :: fs => expectedAfter ((f.header.sequence_number + 1) % 2 ^ 32) fs

def countTag (t : Nat) (fs : List Frame) : Nat :=
  (fs.filter (fun f => payloadTag f.payload == t)).length

/-- The sequence-number expectation encoded in a parser state. -/
def expectedOf (s : ParserState) : Option Nat :=
  if s.firstMessage then none else some s.expectedSeq

theorem countTag_cons (t : Nat) (f : Frame) (fs : List Frame) :
    countTag t (f :: fs) =
      (if payloadTag f.payload = t then 1 else 0) + countTag t fs := by
  by_cases h : payloadTag f.payload = t <;>
    simp [countTag, List.filter_cons, h, Nat.add_comm]

theorem framesBytes_cons (f : Frame) (fs : List Frame) :
    framesBytes (f :: fs) = encodeFrame f ++ framesBytes fs := by
  simp [framesBytes]

/-- Draining a buffer that holds a chain of complete well-formed frames
followed by a stalled tail delivers every frame in order, with no gap,
checksum, or malformed events. -/
theorem parse_messages_aux_drain (fs : List Frame) (rest : List Nat)
    (s : ParserState) (acc : List Event) (count : Nat)
    (hok : ∀ f ∈ fs, frameOk f = true)
    (hchain : chainFromB (expectedOf s) fs = true)
    (hbuf : s.buf.drop s.readPos = framesBytes fs ++ rest)
    (hstall : Stall rest) :
    parse_messages_aux s acc count =
      ({ s with readPos := s.readPos + (framesBytes fs).length,
                expectedSeq := expectedAfter s.expectedSeq fs,
                firstMessage := s.firstMessage && fs.isEmpty,
                messagesParsed := s.messagesParsed + fs.length,
                tradesParsed := s.tradesParsed + countTag 1 fs,
                quotesParsed := s.quotesParsed + countTag 2 fs },
       acc ++ frameEvents fs, count + fs.length) := by
  induction fs generalizing s acc count with
  | nil =>
    have hstall' : Stall (s.buf.drop s.readPos) := by
      rw [hbuf]
      simpa [framesBytes] using hstall
    rw [parse_messages_aux]
    simp [parse_one_stall s hstall', framesBytes, frameEvents, countTag,
      expectedAfter]
  | cons f fs ih =>
    have hokf : frameOk f = true := hok f (by simp)
    have hbuf' : s.buf.drop s.readPos = encodeFrame f ++ (framesBytes fs ++ rest) := by
      rw [hbuf, framesBytes_cons, List.append_assoc]
    have hnogap : ¬ (s.firstMessage = false ∧
        f.header.sequence_number ≠ s.expectedSeq) := by
      cases hfm : s.firstMessage with
      | true => simp [hfm]
      | false =>
        simp only [expectedOf, hfm, if_neg Bool.false_ne_true, chainFromB,
          Bool.and_eq_true, decide_eq_true_eq] at hchain
        exact fun hcon => hcon.2 hchain.1
    have hpf := parse_one_frame s f (framesBytes fs ++ rest) hokf hbuf'
    rw [if_neg hnogap, if_neg hnogap, if_neg hnogap] at hpf
    have hL : get_message_size (payloadTag f.payload) = (encodeFrame f).length :=
      (encodeFrame_length f).symm
    rw [parse_messages_aux]
    simp only [hpf, countsMessage]
    rw [dif_neg (by simp), if_pos trivial]
    have hchain' : chainFromB
        (expectedOf { s with
          readPos := s.readPos + get_message_size (payloadTag f.payload),
          expectedSeq := (f.header.sequence_number + 1) % 2 ^ 32,
          firstMessage := false,
          messagesParsed := s.messagesParsed + 1,
          tradesParsed := s.tradesParsed + (if payloadTag f.payload = 1 then 1 else 0),
          quotesParsed := s.quotesParsed + (if payloadTag f.payload = 2 then 1 else 0),
          sequenceGaps := s.sequenceGaps + 0 }) fs = true := by
      simp only [expectedOf, if_neg Bool.false_ne_true]
      cases hfm : s.firstMessage with
      | true =>
        simp only [expectedOf, hfm, if_pos rfl, chainFromB] at hchain
        exact hchain
      | false =>
        simp only [expectedOf, hfm, if_neg Bool.false_ne_true, chainFromB,
          Bool.and_eq_true, decide_eq_true_eq] at hchain
        exact hchain.2
    have hbuf'' : ({ s with
          readPos := s.readPos + get_message_size (payloadTag f.payload),
          expectedSeq := (f.header.sequence_number + 1) % 2 ^ 32,
          firstMessage := false,
          messagesParsed := s.messagesParsed + 1,
          tradesParsed := s.tradesParsed + (if payloadTag f.payload = 1 then 1 else 0),
          quotesParsed := s.quotesParsed + (if payloadTag f.payload = 2 then 1 else 0),
          sequenceGaps := s.sequenceGaps + 0 } : ParserState).buf.drop
        (s.readPos + get_message_size (payloadTag f.payload)) =
        framesBytes fs ++ rest := by
      show s.buf.drop (s.readPos + get_message_size (payloadTag f.payload)) =
        framesBytes fs ++ rest
      rw [← List.drop_drop, hbuf', hL, List.drop_left]
    have := ih { s with
        readPos := s.readPos + get_message_size (payloadTag f.payload),
        expectedSeq := (f.header.sequence_number + 1) % 2 ^ 32,
        firstMessage := false,
        messagesParsed := s.messagesParsed + 1,
        tradesParsed := s.tradesParsed + (if payloadTag f.payload = 1 then 1 else 0),
        quotesParsed := s.quotesParsed + (if payloadTag f.payload = 2 then 1 else 0),
        sequenceGaps := s.sequenceGaps + 0 }
      (acc ++ ([] ++ [frameEvent f])) (count + 1)
      (fun g hg => hok g (by simp [hg])) hchain' hbuf''
    rw [this]
    refine Prod.ext ?_ (Prod.ext ?_ ?_)
    · show ({ s with
          readPos := s.readPos + get_message_size (payloadTag f.payload) +
            (framesBytes fs).length,
          expectedSeq := expectedAfter ((f.header.sequence_number + 1) % 2 ^ 32) fs,
          firstMessage := false && fs.isEmpty,
          messagesParsed := s.messagesParsed + 1 + fs.length,
          tradesParsed := s.tradesParsed + (if payloadTag f.payload = 1 then 1 else 0)
            + countTag 1 fs,
          quotesParsed := s.quotesParsed + (if payloadTag f.payload = 2 then 1 else 0)
            + countTag 2 fs,
          sequenceGaps := s.sequenceGaps + 0 } : ParserState) = _
      ext <;> simp [framesBytes_cons, countTag_cons, expectedAfter, List.isEmpty] <;>
        omega
    · show (acc ++ ([] ++ [frameEvent f])) ++ frameEvents fs = acc ++ frameEvents (f :: fs)
      simp [frameEvents]
    · show count + 1 + fs.length = count + (f :: fs).length
      simp [List.length_cons]
      omega

/-! ## Feeding chunk partitions of a frame stream -/

theorem append_data_fits (s : ParserState) (data : List Nat)
    (h : s.buf.length + data.length ≤ s.cap) :
    append_data s data = { s with buf := s.buf ++ data } := by
  have hcond : ¬ (s.cap - s.buf.length < data.length) := by omega
  by_cases hz : data.length = 0
  · have hnil : data = [] := List.length_eq_zero.mp hz
    subst hnil
    simp [append_data]
  · unfold append_data
    rw [if_neg hz, if_neg hcond]
    unfold append_grow
    rw [if_neg hcond]

theorem expectedAfter_append (e : Nat) (fs1 fs2 : List Frame) :
    expectedAfter e (fs1 ++ fs2) = expectedAfter (expectedAfter e fs1) fs2 := by
  induction fs1 generalizing e with
  | nil => rfl
  | cons f fs ih => simp [expectedAfter, ih]

theorem countTag_append (t : Nat) (fs1 fs2 : List Frame) :
    countTag t (fs1 ++ fs2) = countTag t fs1 + countTag t fs2 := by
  simp [countTag, List.filter_append]

theorem isEmpty_append {α : Type} (l1 l2 : List α) :
    (l1 ++ l2).isEmpty = (l1.isEmpty && l2.isEmpty) := by
  cases l1 <;> cases l2 <;> simp

theorem frameEvents_append (fs1 fs2 : List Frame) :
    frameEvents (fs1 ++ fs2) = frameEvents fs1 ++ frameEvents fs2 := by
  simp [frameEvents]

theorem chainFromB_split (b : Bool) (e : Nat) (fs1 fs2 : List Frame)
    (h : chainFromB (if b then none else some e) (fs1 ++ fs2) = true) :
    chainFromB (if b then none else some e) fs1 = true ∧
      chainFromB (if b && fs1.isEmpty then none else some (expectedAfter e fs1))
        fs2 = true := by
  induction fs1 generalizing b e with
  | nil =>
    cases b <;> simpa [chainFromB, expectedAfter] using h
  | cons f fs ih =>
    cases b with
    | false =>
      simp only [if_neg Bool.false_ne_true, List.cons_append, chainFromB,
        Bool.and_eq_true, decide_eq_true_eq] at h ⊢
      have := ih false ((f.header.sequence_number + 1) % 2 ^ 32)
        (by simpa using h.2)
      simp only [if_neg Bool.false_ne_true] at this
      refine ⟨⟨h.1, this.1⟩, ?_⟩
      simpa [List.isEmpty, expectedAfter] using this.2
    | true =>
      simp only [if_pos rfl, List.cons_append, chainFromB] at h ⊢
      have := ih false ((f.header.sequence_number + 1) % 2 ^ 32)
        (by simpa using h)
      simp only [if_neg Bool.false_ne_true] at this
      refine ⟨this.1, ?_⟩
      simpa [List.isEmpty, expectedAfter] using this.2

/-- Any way of cutting a frame stream into an already-received block `u` and
a future block `X` splits the frames into fully received ones and a strict
front fragment of the next frame. -/
theorem stream_split (fs : List Frame) (u X : List Nat)
    (h : u ++ X = framesBytes fs) :
    ∃ fs1 fs2 p1, fs = fs1 ++ fs2 ∧ u = framesBytes fs1 ++ p1 ∧
      p1 ++ X = framesBytes fs2 ∧
      (p1 = [] ∨ ∃ g gs, fs2 = g :: gs ∧ p1 = (encodeFrame g).take p1.length ∧
        p1.length < (encodeFrame g).length) := by
  induction fs generalizing u with
  | nil =>
    simp only [framesBytes, List.map_nil, List.flatten_nil,
      List.append_eq_nil] at h
    exact ⟨[], [], [], rfl, by simp [framesBytes, h.1], by simp [framesBytes, h.2],
      Or.inl rfl⟩
  | cons g gs ih =>
    rw [framesBytes_cons] at h
    by_cases hlen : u.length < (encodeFrame g).length
    · refine ⟨[], g :: gs, u, rfl, by simp [framesBytes], ?_, ?_⟩
      · rw [framesBytes_cons]
        exact h
      · refine Or.inr ⟨g, gs, rfl, ?_, hlen⟩
        have htk : (encodeFrame g ++ framesBytes gs).take u.length =
            (encodeFrame g).take u.length := by
          rw [List.take_append_eq_append_take,
            show u.length - (encodeFrame g).length = 0 by omega,
            List.take_zero, List.append_nil]
        calc u = (u ++ X).take u.length := (List.take_left u X).symm
          _ = (encodeFrame g ++ framesBytes gs).take u.length := by rw [h]
          _ = (encodeFrame g).take u.length := htk
    · push_neg at hlen
      have hg : u.take (encodeFrame g).length = encodeFrame g := by
        calc u.take (encodeFrame g).length
            = (u ++ X).take (encodeFrame g).length :=
              (List.take_append_of_le_length hlen).symm
          _ = (encodeFrame g ++ framesBytes gs).take (encodeFrame g).length := by
              rw [h]
          _ = encodeFrame g := List.take_left _ _
      have hd : u.drop (encodeFrame g).length ++ X = framesBytes gs := by
        have hda : (u ++ X).drop (encodeFrame g).length =
            u.drop (encodeFrame g).length ++ X :=
          List.drop_append_of_le_length hlen
        rw [← hda, h, List.drop_left]
      obtain ⟨fs1, fs2, p1, hfs, hu, hx, hdisj⟩ := ih (u.drop (encodeFrame g).length) hd
      refine ⟨g :: fs1, fs2, p1, by simp [hfs], ?_, hx, hdisj⟩
      rw [framesBytes_cons, List.append_assoc, ← hu]
      calc u = u.take (encodeFrame g).length ++ u.drop (encodeFrame g).length :=
            (List.take_append_drop _ u).symm
        _ = encodeFrame g ++ u.drop (encodeFrame g).length := by rw [hg]

/-- Feeding any chunk partition of a consecutive well-formed frame stream
through `append_data` + `parse_messages` delivers every frame exactly once,
in order, with no gap, checksum, or malformed events, as long as the bytes
fit in the pre-allocated buffer. -/
theorem feedChunks_frames (cs : List (List Nat)) (fs : List Frame) (p : List Nat)
    (s : ParserState)
    (hok : ∀ f ∈ fs, frameOk f = true)
    (hchain : chainFromB (expectedOf s) fs = true)
    (hbuf : s.buf.drop s.readPos = p)
    (hr : s.readPos ≤ s.buf.length)
    (hpfx : p ++ cs.flatten = framesBytes fs)
    (hpstall : p = [] ∨ ∃ g gs, fs = g :: gs ∧ p = (encodeFrame g).take p.length ∧
        p.length < (encodeFrame g).length)
    (hcap : s.buf.length + cs.flatten.length ≤ s.cap) :
    feedChunks s cs =
      ({ s with buf := s.buf ++ cs.flatten,
                readPos := s.buf.length + cs.flatten.length,
                expectedSeq := expectedAfter s.expectedSeq fs,
                firstMessage := s.firstMessage && fs.isEmpty,
                messagesParsed := s.messagesParsed + fs.length,
                tradesParsed := s.tradesParsed + countTag 1 fs,
                quotesParsed := s.quotesParsed + countTag 2 fs },
       frameEvents fs, fs.length) := by
  induction cs generalizing fs p s with
  | nil =>
    have hp : p = framesBytes fs := by simpa using hpfx
    have hfs : fs = [] := by
      rcases hpstall with h0 | ⟨g, gs, hgs, _, hplen⟩
      · cases fs with
        | nil => rfl
        | cons g gs =>
          rw [h0] at hp
          have := congrArg List.length hp
          rw [framesBytes_cons] at this
          have hg20 : 20 ≤ (encodeFrame g).length := by
            rw [encodeFrame_length]
            cases g.payload <;> simp [payloadTag, get_message_size, TRADE_MSG_SIZE,
              QUOTE_MSG_SIZE, HEARTBEAT_MSG_SIZE, HEADER_SIZE, TRADE_PAYLOAD_SIZE,
              QUOTE_PAYLOAD_SIZE, CHECKSUM_SIZE]
          simp [List.length_append] at this
          omega
      · subst hgs
        rw [framesBytes_cons] at hp
        have := congrArg List.length hp
        simp [List.length_append] at this
        omega
    subst hfs
    have hp0 : p = [] := by simpa [framesBytes] using hp
    subst hp0
    have hread : s.readPos = s.buf.length := by
      have := congrArg List.length hbuf
      simp [List.length_drop] at this
      omega
    show (s, [], 0) = _
    refine Prod.ext ?_ (Prod.ext ?_ ?_)
    · ext <;> simp [hread, framesBytes, expectedAfter, countTag]
    · simp [frameEvents]
    · simp
  | cons c cs ih =>
    have hflat : (c :: cs).flatten = c ++ cs.flatten := by simp
    have hfit : s.buf.length + c.length ≤ s.cap := by
      rw [hflat] at hcap
      simp [List.length_append] at hcap
      omega
    have happ : append_data s c = { s with buf := s.buf ++ c } :=
      append_data_fits s c hfit
    have hu : (s.buf ++ c).drop s.readPos = p ++ c := by
      rw [List.drop_append_of_le_length hr, hbuf]
    have hsplit : (p ++ c) ++ cs.flatten = framesBytes fs := by
      rw [List.append_assoc, ← hflat]
      exact hpfx
    obtain ⟨fs1, fs2, p1, hfs, hu1, hx, hdisj⟩ := stream_split fs (p ++ c) cs.flatten hsplit
    have hok1 : ∀ f ∈ fs1, frameOk f = true := fun f hf => hok f (by rw [hfs]; simp [hf])
    have hok2 : ∀ f ∈ fs2, frameOk f = true := fun f hf => hok f (by rw [hfs]; simp [hf])
    have hstall1 : Stall p1 := by
      rcases hdisj with h0 | ⟨g, gs, hgs, hpre, hplen⟩
      · left
        rw [h0]
        simp [HEADER_SIZE]
      · right
        refine ⟨g, hok2 g (by rw [hgs]; simp), ?_, hpre⟩
        rw [encodeFrame_length] at hplen
        exact hplen
    have hchainSplit := chainFromB_split s.firstMessage s.expectedSeq fs1 fs2
      (by rw [← hfs]; simpa [expectedOf] using hchain)
    have hchain1 : chainFromB (expectedOf { s with buf := s.buf ++ c }) fs1 = true := by
      simpa [expectedOf] using hchainSplit.1
    have hbuf1 : ({ s with buf := s.buf ++ c } : ParserState).buf.drop
        ({ s with buf := s.buf ++ c } : ParserState).readPos =
        framesBytes fs1 ++ p1 := by
      show (s.buf ++ c).drop s.readPos = _
      rw [hu, hu1]
    have hdrain := parse_messages_aux_drain fs1 p1 { s with buf := s.buf ++ c }
      [] 0 hok1 hchain1 hbuf1 hstall1
    have hulen : p.length + c.length = (framesBytes fs1).length + p1.length := by
      have := congrArg List.length hu1
      simpa [List.length_append] using this
    have hreadlen : s.readPos + p.length = s.buf.length := by
      have := congrArg List.length hbuf
      simp [List.length_drop] at this
      omega
    -- the state after draining the first chunk
    set s3 : ParserState :=
      { s with buf := s.buf ++ c,
               readPos := s.readPos + (framesBytes fs1).length,
               expectedSeq := expectedAfter s.expectedSeq fs1,
               firstMessage := s.firstMessage && fs1.isEmpty,
               messagesParsed := s.messagesParsed + fs1.length,
               tradesParsed := s.tradesParsed + countTag 1 fs1,
               quotesParsed := s.quotesParsed + countTag 2 fs1 } with hs3
    have hbuf3 : s3.buf.drop s3.readPos = p1 := by
      show (s.buf ++ c).drop (s.readPos + (framesBytes fs1).length) = p1
      rw [← List.drop_drop, hu, hu1, List.drop_left]
    have hr3 : s3.readPos ≤ s3.buf.length := by
      show s.readPos + (framesBytes fs1).length ≤ (s.buf ++ c).length
      simp only [List.length_append]
      omega
    have hchain3 : chainFromB (expectedOf s3) fs2 = true := by
      have h2 := hchainSplit.2
      show chainFromB
        (if s.firstMessage && fs1.isEmpty then none
         else some (expectedAfter s.expectedSeq fs1)) fs2 = true
      exact h2
    have hcap3 : s3.buf.length + cs.flatten.length ≤ s3.cap := by
      show (s.buf ++ c).length + cs.flatten.length ≤ s.cap
      rw [hflat] at hcap
      simp only [List.length_append] at hcap ⊢
      omega
    have hih := ih fs2 p1 s3 hok2 hchain3 hbuf3 hr3 hx hdisj hcap3
    show (let r1 := feedChunk s c
          let r2 := feedChunks r1.1 cs
          (r2.1, r1.2.1 ++ r2.2.1, r1.2.2 + r2.2.2)) = _
    have hr1 : feedChunk s c = (s3, frameEvents fs1, fs1.length) := by
      show parse_messages (append_data s c) = _
      rw [happ]
      show parse_messages_aux { s with buf := s.buf ++ c } [] 0 = _
      rw [hdrain]
      simp
    simp only [hr1, hih]
    refine Prod.ext ?_ (Prod.ext ?_ ?_)
    · show ({ s3 with
              buf := s3.buf ++ cs.flatten,
              readPos := s3.buf.length + cs.flatten.length,
              expectedSeq := expectedAfter s3.expectedSeq fs2,
              firstMessage := s3.firstMessage && fs2.isEmpty,
              messagesParsed := s3.messagesParsed + fs2.length,
              tradesParsed := s3.tradesParsed + countTag 1 fs2,
              quotesParsed := s3.quotesParsed + countTag 2 fs2 } : ParserState) = _
      rw [hs3, hfs]
      ext <;>
        simp [List.append_assoc, List.length_append, expectedAfter_append,
          countTag_append, isEmpty_append, Bool.and_assoc,
          List.length_append] <;>
        omega
    · show frameEvents fs1 ++ frameEvents fs2 = frameEvents fs
      rw [hfs, frameEvents_append]
    · show fs1.length + fs2.length = fs.length
      rw [hfs, List.length_append]

theorem frameEvent_ne_gap (f : Frame) (a b : Nat) :
    frameEvent f ≠ Event.gap a b := by
  cases hp : f.payload <;> simp [frameEvent, hp]

/-- C1: For every header H and payload P of a matching kind, serializing the
frame as the tick generator does (header, payload, appended XOR checksum) and
feeding the bytes to a fresh parser yields exactly one successful callback
carrying the same header and payload bytewise, the checksum validates, and
the checksum-error and malformed counters stay at zero. -/
theorem C1_codec_roundtrip (f : Frame) (hok : frameOk f = true) :
    (feedChunk initParser (encodeFrame f)).2.1 = [frameEvent f] ∧
    (feedChunk initParser (encodeFrame f)).2.2 = 1 ∧
    (feedChunk initParser (encodeFrame f)).1.checksumErrors = 0 ∧
    (feedChunk initParser (encodeFrame f)).1.malformed = 0 ∧
    (feedChunk initParser (encodeFrame f)).1.sequenceGaps = 0 ∧
    validate_checksum (encodeFrame f) (encodeFrame f).length = true := by
  have hlen : (encodeFrame f).length ≤ 44 := by
    rw [encodeFrame_length]
    cases f.payload <;> simp [payloadTag, get_message_size, TRADE_MSG_SIZE,
      QUOTE_MSG_SIZE, HEARTBEAT_MSG_SIZE, HEADER_SIZE, TRADE_PAYLOAD_SIZE,
      QUOTE_PAYLOAD_SIZE, CHECKSUM_SIZE]
  have hfeed := feedChunks_frames [encodeFrame f] [f] [] initParser
    (by intro g hg; simp at hg; subst hg; exact hok)
    (by simp [expectedOf, initParser, chainFromB])
    (by simp [initParser])
    (by simp [initParser])
    (by simp [framesBytes])
    (Or.inl rfl)
    (by simp [initParser, INITIAL_BUFFER_SIZE]; omega)
  have hone : feedChunks initParser [encodeFrame f] =
      ((feedChunk initParser (encodeFrame f)).1,
       (feedChunk initParser (encodeFrame f)).2.1 ++ [],
       (feedChunk initParser (encodeFrame f)).2.2 + 0) := rfl
  rw [hone] at hfeed
  have hev : (feedChunk initParser (encodeFrame f)).2.1 ++ [] =
      (feedChunk initParser (encodeFrame f)).2.1 := List.append_nil _
  refine ⟨?_, ?_, ?_, ?_, ?_, ?_⟩
  · have := congrArg (fun x : ParserState × List Event × Nat => x.2.1) hfeed
    simpa [frameEvents] using this
  · have := congrArg (fun x : ParserState × List Event × Nat => x.2.2) hfeed
    simpa using this
  · have := congrArg (fun x : ParserState × List Event × Nat => x.1.checksumErrors) hfeed
    simpa [initParser] using this
  · have := congrArg (fun x : ParserState × List Event × Nat => x.1.malformed) hfeed
    simpa [initParser] using this
  · have := congrArg (fun x : ParserState × List Event × Nat => x.1.sequenceGaps) hfeed
    simpa [initParser] using this
  · have hv := validate_checksum_frame f []
    rw [List.append_nil, ← encodeFrame_length] at hv
    exact hv

/-- Witness for C1 at the E3-style quote frame (kind 2, seq 7,
ts 1000000000, symbol 42). -/
theorem C1_codec_roundtrip_witness :
    (feedChunk initParser (encodeFrame
      ⟨⟨2, 7, 1000000000, 42⟩, .quote ⟨100, 1000, 101, 2000⟩⟩)).2.2 = 1 :=
  (C1_codec_roundtrip ⟨⟨2, 7, 1000000000, 42⟩, .quote ⟨100, 1000, 101, 2000⟩⟩
    (by decide)).2.1

/-- C2: For any sequence of K well-formed frames with consecutive sequence
numbers and any partition of their concatenation into byte chunks (within
the pre-allocated 4 MiB buffer), feeding the chunks in order via
`append_data` + `parse_messages` produces exactly K frame callbacks in the
original order, with no gap events and no malformed or checksum errors. -/
theorem C2_reassembly_fragmentation (fs : List Frame) (cs : List (List Nat))
    (hok : ∀ f ∈ fs, frameOk f = true)
    (hchain : chainFromB none fs = true)
    (hpart : cs.flatten = framesBytes fs)
    (hfit : (framesBytes fs).length ≤ INITIAL_BUFFER_SIZE) :
    (feedChunks initParser cs).2.1 = frameEvents fs ∧
    (feedChunks initParser cs).2.2 = fs.length ∧
    (feedChunks initParser cs).1.sequenceGaps = 0 ∧
    (feedChunks initParser cs).1.checksumErrors = 0 ∧
    (feedChunks initParser cs).1.malformed = 0 ∧
    ∀ a b, Event.gap a b ∉ (feedChunks initParser cs).2.1 := by
  have hfeed := feedChunks_frames cs fs [] initParser hok
    (by simpa [expectedOf, initParser] using hchain)
    (by simp [initParser])
    (by simp [initParser])
    (by simpa using hpart)
    (Or.inl rfl)
    (by simp only [initParser, List.length_nil, Nat.zero_add, hpart]; exact hfit)
  refine ⟨?_, ?_, ?_, ?_, ?_, ?_⟩
  · exact congrArg (fun x : ParserState × List Event × Nat => x.2.1) hfeed
  · exact congrArg (fun x : ParserState × List Event × Nat => x.2.2) hfeed
  · have := congrArg (fun x : ParserState × List Event × Nat => x.1.sequenceGaps) hfeed
    simpa [initParser] using this
  · have := congrArg (fun x : ParserState × List Event × Nat => x.1.checksumErrors) hfeed
    simpa [initParser] using this
  · have := congrArg (fun x : ParserState × List Event × Nat => x.1.malformed) hfeed
    simpa [initParser] using this
  · intro a b hmem
    rw [congrArg (fun x : ParserState × List Event × Nat => x.2.1) hfeed] at hmem
    simp only [frameEvents, List.mem_map] at hmem
    obtain ⟨g, -, hg⟩ := hmem
    exact frameEvent_ne_gap g a b hg

/-- Witness for C2: two heartbeat frames with sequence numbers 5 and 6, fed
one byte at a time. -/
theorem C2_reassembly_fragmentation_witness :
    (feedChunks initParser
      ((framesBytes [⟨⟨3, 5, 0, 0⟩, .heartbeat⟩, ⟨⟨3, 6, 0, 0⟩, .heartbeat⟩]).map
        (fun b => [b]))).2.2 = 2 :=
  (C2_reassembly_fragmentation
    [⟨⟨3, 5, 0, 0⟩, .heartbeat⟩, ⟨⟨3, 6, 0, 0⟩, .heartbeat⟩]
    ((framesBytes [⟨⟨3, 5, 0, 0⟩, .heartbeat⟩, ⟨⟨3, 6, 0, 0⟩, .heartbeat⟩]).map
      (fun b => [b]))
    (by decide) (by decide) (by decide) (by decide)).2.1

/-- C3: after any accepted frame, `expected_sequence_` equals the frame's
sequence + 1 mod 2^32; a non-first frame whose sequence differs from the
expectation yields the gap callback with (expected, received), a gap-counter
bump of 1, and the frame is still delivered; an in-order (or first) frame is
accepted with no gap. -/
theorem C3_sequence_tracking (s : ParserState) (f : Frame) (rest : List Nat)
    (hok : frameOk f = true)
    (hbuf : s.buf.drop s.readPos = encodeFrame f ++ rest) :
    (parse_one s).2.1.expectedSeq = (f.header.sequence_number + 1) % 2 ^ 32 ∧
    frameEvent f ∈ (parse_one s).2.2 ∧
    (s.firstMessage = false → f.header.sequence_number ≠ s.expectedSeq →
      (parse_one s).1 = .SEQUENCE_GAP ∧
      (parse_one s).2.2 =
        [Event.gap s.expectedSeq f.header.sequence_number, frameEvent f] ∧
      (parse_one s).2.1.sequenceGaps = s.sequenceGaps + 1) ∧
    ((s.firstMessage = true ∨ f.header.sequence_number = s.expectedSeq) →
      (parse_one s).1 = .SUCCESS ∧
      (parse_one s).2.2 = [frameEvent f] ∧
      (parse_one s).2.1.sequenceGaps = s.sequenceGaps) := by
  rw [parse_one_frame s f rest hok hbuf]
  by_cases hcond : s.firstMessage = false ∧ f.header.sequence_number ≠ s.expectedSeq
  · rw [if_pos hcond, if_pos hcond, if_pos hcond]
    refine ⟨rfl, by simp, fun _ _ => ⟨rfl, by simp, rfl⟩, fun h => ?_⟩
    exfalso
    rcases h with h | h
    · rw [h] at hcond
      exact absurd hcond.1 (by simp)
    · exact hcond.2 h
  · rw [if_neg hcond, if_neg hcond, if_neg hcond]
    refine ⟨rfl, by simp, fun h1 h2 => absurd ⟨h1, h2⟩ hcond, fun _ => ⟨rfl, by simp, rfl⟩⟩

/-- Witness for C3: an out-of-order heartbeat (sequence 5, expectation 10)
on a parser past its first message. -/
theorem C3_sequence_tracking_witness :
    (parse_one { buf := encodeFrame ⟨⟨3, 5, 0, 0⟩, .heartbeat⟩, cap := 4194304,
                 readPos := 0, expectedSeq := 10, firstMessage := false,
                 messagesParsed := 0, tradesParsed := 0, quotesParsed := 0,
                 checksumErrors := 0, sequenceGaps := 0,
                 malformed := 0 }).2.1.expectedSeq = 6 :=
  (C3_sequence_tracking _ ⟨⟨3, 5, 0, 0⟩, .heartbeat⟩ [] (by decide)
    (by decide)).1

/-! ## Symbol cache (`cache.cpp`, seqlock writer side)

Prices (IEEE-754 doubles in the C++) are modelled as exact rationals: the
claims below are about which fields the writers touch and the `== 0.0`
opening-price guard, not about rounding.  The 64-bit sequence and update
counters wrap at `2 ^ 64`.  The reader's retry loop is not modelled: in this
single-writer embedding every operation runs to completion, so `get_snapshot`
reads the committed state (out-of-range ids read a zeroed state, as in the
C++). -/

structure MarketState where
  best_bid : Rat
  best_ask : Rat
  bid_quantity : Nat
  ask_quantity : Nat
  last_traded_price : Rat
  last_traded_quantity : Nat
  last_update_time : Nat
  update_count : Nat
  opening_price : Rat
deriving DecidableEq

def MarketState.init : MarketState :=
  { best_bid := 0, best_ask := 0, bid_quantity := 0, ask_quantity := 0,
    last_traded_price := 0, last_traded_quantity := 0, last_update_time := 0,
    update_count := 0, opening_price := 0 }

structure SymbolEntry where
  sequence : Nat
  state : MarketState
deriving DecidableEq

structure SymbolCache where
  num_symbols : Nat
  entries : List SymbolEntry
deriving DecidableEq

/-- `entries_[i]` (the C++ array access; out of range reads the zero entry,
which the guarded call sites never do). -/
def entryAt (c : SymbolCache) (i : Nat) : SymbolEntry :=
  c.entries.getD i ⟨0, .init⟩

/-- `SymbolCache::reset`: every entry's sequence to 0 and state to zeroes. -/
def cacheReset (c : SymbolCache) : SymbolCache :=
  { c with entries := List.replicate MAX_SYMBOLS ⟨0, .init⟩ }

/-- The `SymbolCache(num_symbols)` constructor. -/
def mkCache (n : Nat) : SymbolCache :=
  cacheReset { num_symbols := min n MAX_SYMBOLS, entries := [] }

/-- `SymbolCache::begin_write`: bump the sequence to odd (release store of
`seq + 1`, wrapping as `uint64_t`). -/
def begin_write (c : SymbolCache) (i : Nat) : SymbolCache :=
  if c.num_symbols ≤ i then c
  else { c with
    entries := c.entries.set i
      { entryAt c i with sequence := ((entryAt c i).sequence + 1) % 2 ^ 64 } }

/-- `SymbolCache::end_write`: bump the sequence back to even. -/
def end_write (c : SymbolCache) (i : Nat) : SymbolCache :=
  if c.num_symbols ≤ i then c
  else { c with
    entries := c.entries.set i
      { entryAt c i with sequence := ((entryAt c i).sequence + 1) % 2 ^ 64 } }

/-- Overwrite the payload state at `i` (the field stores between
`begin_write` and `end_write`). -/
def setState (c : SymbolCache) (i : Nat) (st : MarketState) : SymbolCache :=
  { c with
    entries := c.entries.set i { entryAt c i with state := st } }

/-- The field writes of `update_quote`: quote fields, timestamp, counter,
and the opening price when it is still `0.0`. -/
def quoteUpd (st : MarketState) (bp : Rat) (bq : Nat) (ap : Rat) (aq : Nat)
    (ts : Nat) : MarketState :=
  if st.opening_price = 0 then
    { st with best_bid := bp, bid_quantity := bq, best_ask := ap,
              ask_quantity := aq, last_update_time := ts,
              update_count := (st.update_count + 1) % 2 ^ 64,
              opening_price := (bp + ap) / 2 }
  else
    { st with best_bid := bp, bid_quantity := bq, best_ask := ap,
              ask_quantity := aq, last_update_time := ts,
              update_count := (st.update_count + 1) % 2 ^ 64 }

/-- The field writes of `update_trade`. -/
def tradeUpd (st : MarketState) (p : Rat) (q : Nat) (ts : Nat) : MarketState :=
  if st.opening_price = 0 then
    { st with last_traded_price := p, last_traded_quantity := q,
              last_update_time := ts,
              update_count := (st.update_count + 1) % 2 ^ 64,
              opening_price := p }
  else
    { st with last_traded_price := p, last_traded_quantity := q,
              last_update_time := ts,
              update_count := (st.update_count + 1) % 2 ^ 64 }

/-- The field writes of `update_bid` (no opening-price store). -/
def bidUpd (st : MarketState) (p : Rat) (q : Nat) (ts : Nat) : MarketState :=
  { st with best_bid := p, bid_quantity := q, last_update_time := ts,
            update_count := (st.update_count + 1) % 2 ^ 64 }

/-- The field writes of `update_ask` (no opening-price store). -/
def askUpd (st : MarketState) (p : Rat) (q : Nat) (ts : Nat) : MarketState :=
  { st with best_ask := p, ask_quantity := q, last_update_time := ts,
            update_count := (st.update_count + 1) % 2 ^ 64 }

/-- The common write path of every update operation: `begin_write`, the
field stores `F`, `end_write`. -/
def writeOp (c : SymbolCache) (i : Nat) (F : MarketState → MarketState) :
    SymbolCache :=
  end_write (setState (begin_write c i) i
    (F (entryAt (begin_write c i) i).state)) i

def update_quote (c : SymbolCache) (i : Nat) (bp : Rat) (bq : Nat) (ap : Rat)
    (aq : Nat) (ts : Nat) : SymbolCache :=
  if c.num_symbols ≤ i then c
  else writeOp c i (fun st => quoteUpd st bp bq ap aq ts)

def update_trade (c : SymbolCache) (i : Nat) (p : Rat) (q : Nat) (ts : Nat) :
    SymbolCache :=
  if c.num_symbols ≤ i then c
  else writeOp c i (fun st => tradeUpd st p q ts)

def update_bid (c : SymbolCache) (i : Nat) (p : Rat) (q : Nat) (ts : Nat) :
    SymbolCache :=
  if c.num_symbols ≤ i then c
  else writeOp c i (fun st => bidUpd st p q ts)

def update_ask (c : SymbolCache) (i : Nat) (p : Rat) (q : Nat) (ts : Nat) :
    SymbolCache :=
  if c.num_symbols ≤ i then c
  else writeOp c i (fun st => askUpd st p q ts)

/-- `SymbolCache::get_snapshot` in the quiescent model: the committed state,
or zeroes for an out-of-range id. -/
def get_snapshot (c : SymbolCache) (i : Nat) : MarketState :=
  if c.num_symbols ≤ i then .init else (entryAt c i).state

theorem getD_set_self {α : Type} (l : List α) (i : Nat) (a d : α)
    (h : i < l.length) : (l.set i a).getD i d = a := by
  induction l generalizing i with
  | nil => simp at h
  | cons x xs ih =>
    cases i with
    | zero => simp
    | succ j =>
      simp only [List.set, List.getD_cons_succ]
      exact ih j (by simpa using h)

theorem getD_set_ne {α : Type} (l : List α) (i j : Nat) (a d : α)
    (h : i ≠ j) : (l.set i a).getD j d = l.getD j d := by
  induction l generalizing i j with
  | nil => simp
  | cons x xs ih =>
    cases i with
    | zero =>
      cases j with
      | zero => exact absurd rfl h
      | succ k => simp
    | succ i0 =>
      cases j with
      | zero => simp
      | succ k =>
        simp only [List.set, List.getD_cons_succ]
        exact ih i0 k (by omega)

theorem begin_write_entry (c : SymbolCache) (i : Nat)
    (hi : ¬ c.num_symbols ≤ i) (hl : i < c.entries.length) :
    entryAt (begin_write c i) i =
      ⟨((entryAt c i).sequence + 1) % 2 ^ 64, (entryAt c i).state⟩ := by
  unfold begin_write
  rw [if_neg hi]
  show (c.entries.set i _).getD i _ = _
  rw [getD_set_self _ _ _ _ hl]

theorem begin_write_shape (c : SymbolCache) (i : Nat) :
    (begin_write c i).num_symbols = c.num_symbols ∧
      (begin_write c i).entries.length = c.entries.length := by
  unfold begin_write
  split <;> simp

theorem setState_entry (c : SymbolCache) (i : Nat) (st : MarketState)
    (hl : i < c.entries.length) :
    entryAt (setState c i st) i = ⟨(entryAt c i).sequence, st⟩ := by
  unfold setState
  show (c.entries.set i _).getD i _ = _
  rw [getD_set_self _ _ _ _ hl]

theorem setState_shape (c : SymbolCache) (i : Nat) (st : MarketState) :
    (setState c i st).num_symbols = c.num_symbols ∧
      (setState c i st).entries.length = c.entries.length := by
  unfold setState
  simp

theorem end_write_entry (c : SymbolCache) (i : Nat)
    (hi : ¬ c.num_symbols ≤ i) (hl : i < c.entries.length) :
    entryAt (end_write c i) i =
      ⟨((entryAt c i).sequence + 1) % 2 ^ 64, (entryAt c i).state⟩ := by
  unfold end_write
  rw [if_neg hi]
  show (c.entries.set i _).getD i _ = _
  rw [getD_set_self _ _ _ _ hl]

theorem writeOp_entry (c : SymbolCache) (i : Nat) (F : MarketState → MarketState)
    (hi : ¬ c.num_symbols ≤ i) (hl : i < c.entries.length) :
    entryAt (writeOp c i F) i =
      ⟨((entryAt c i).sequence + 2) % 2 ^ 64, F (entryAt c i).state⟩ := by
  have hbs := begin_write_shape c i
  have hb := begin_write_entry c i hi hl
  have hss := setState_shape (begin_write c i) i
    (F (entryAt (begin_write c i) i).state)
  have hs := setState_entry (begin_write c i) i
    (F (entryAt (begin_write c i) i).state) (by omega)
  have he := end_write_entry
    (setState (begin_write c i) i (F (entryAt (begin_write c i) i).state)) i
    (by omega) (by omega)
  unfold writeOp
  rw [he, hs, hb]
  simp only []
  congr 1
  rw [Nat.mod_add_mod]

theorem writeOp_shape (c : SymbolCache) (i : Nat) (F : MarketState → MarketState) :
    (writeOp c i F).num_symbols = c.num_symbols ∧
      (writeOp c i F).entries.length = c.entries.length := by
  have hbs := begin_write_shape c i
  have hss := setState_shape (begin_write c i) i
    (F (entryAt (begin_write c i) i).state)
  unfold writeOp end_write
  split <;> (try simp) <;> omega

theorem entryAt_other (c : SymbolCache) (i j : Nat) (e : SymbolEntry)
    (h : i ≠ j) :
    entryAt { c with entries := c.entries.set i e } j = entryAt c j := by
  unfold entryAt
  exact getD_set_ne _ _ _ _ _ h

theorem begin_write_other (c : SymbolCache) (i j : Nat) (h : i ≠ j) :
    entryAt (begin_write c i) j = entryAt c j := by
  unfold begin_write
  split
  · rfl
  · exact entryAt_other c i j _ h

theorem end_write_other (c : SymbolCache) (i j : Nat) (h : i ≠ j) :
    entryAt (end_write c i) j = entryAt c j := by
  unfold end_write
  split
  · rfl
  · exact entryAt_other c i j _ h

theorem setState_other (c : SymbolCache) (i j : Nat) (st : MarketState)
    (h : i ≠ j) : entryAt (setState c i st) j = entryAt c j := by
  unfold setState
  exact entryAt_other c i j _ h

theorem writeOp_other (c : SymbolCache) (i j : Nat)
    (F : MarketState → MarketState) (h : i ≠ j) :
    entryAt (writeOp c i F) j = entryAt c j := by
  unfold writeOp
  rw [end_write_other _ _ _ h, setState_other _ _ _ _ h, begin_write_other _ _ _ h]

/-- One writer-side cache operation with its arguments. -/
inductive CacheOp
  | quote (i : Nat) (bp : Rat) (bq : Nat) (ap : Rat) (aq : Nat) (ts : Nat)
  | trade (i : Nat) (p : Rat) (q : Nat) (ts : Nat)
  | bid (i : Nat) (p : Rat) (q : Nat) (ts : Nat)
  | ask (i : Nat) (p : Rat) (q : Nat) (ts : Nat)

def applyOp (c : SymbolCache) : CacheOp → SymbolCache
  | .quote i bp bq ap aq ts => update_quote c i bp bq ap aq ts
  | .trade i p q ts => update_trade c i p q ts
  | .bid i p q ts => update_bid c i p q ts
  | .ask i p q ts => update_ask c i p q ts

def opIndex : CacheOp → Nat
  | .quote i _ _ _ _ _ => i
  | .trade i _ _ _ => i
  | .bid i _ _ _ => i
  | .ask i _ _ _ => i

theorem applyOp_shape (c : SymbolCache) (op : CacheOp) :
    (applyOp c op).num_symbols = c.num_symbols ∧
      (applyOp c op).entries.length = c.entries.length := by
  cases op <;>
    simp only [applyOp, update_quote, update_trade, update_bid, update_ask] <;>
    split <;> first | exact ⟨rfl, rfl⟩ | exact writeOp_shape _ _ _

theorem applyOp_entry_at (c : SymbolCache) (op : CacheOp) (i : Nat)
    (hl : i < c.entries.length) :
    entryAt (applyOp c op) i = entryAt c i ∨
      (¬ c.num_symbols ≤ i ∧ opIndex op = i ∧
        (entryAt (applyOp c op) i).sequence =
          ((entryAt c i).sequence + 2) % 2 ^ 64) := by
  cases op with
  | quote j bp bq ap aq ts =>
    by_cases hj : j = i
    · subst hj
      simp only [applyOp, update_quote]
      split
      · exact Or.inl rfl
      · next hg =>
        right
        exact ⟨hg, rfl, by rw [writeOp_entry c j _ hg hl]⟩
    · left
      simp only [applyOp, update_quote]
      split
      · rfl
      · exact writeOp_other _ _ _ _ hj
  | trade j p q ts =>
    by_cases hj : j = i
    · subst hj
      simp only [applyOp, update_trade]
      split
      · exact Or.inl rfl
      · next hg =>
        right
        exact ⟨hg, rfl, by rw [writeOp_entry c j _ hg hl]⟩
    · left
      simp only [applyOp, update_trade]
      split
      · rfl
      · exact writeOp_other _ _ _ _ hj
  | bid j p q ts =>
    by_cases hj : j = i
    · subst hj
      simp only [applyOp, update_bid]
      split
      · exact Or.inl rfl
      · next hg =>
        right
        exact ⟨hg, rfl, by rw [writeOp_entry c j _ hg hl]⟩
    · left
      simp only [applyOp, update_bid]
      split
      · rfl
      · exact writeOp_other _ _ _ _ hj
  | ask j p q ts =>
    by_cases hj : j = i
    · subst hj
      simp only [applyOp, update_ask]
      split
      · exact Or.inl rfl
      · next hg =>
        right
        exact ⟨hg, rfl, by rw [writeOp_entry c j _ hg hl]⟩
    · left
      simp only [applyOp, update_ask]
      split
      · rfl
      · exact writeOp_other _ _ _ _ hj

theorem foldl_applyOp_even (ops : List CacheOp) (c : SymbolCache) (i : Nat)
    (hl : i < c.entries.length)
    (hev : (entryAt c i).sequence % 2 = 0 ∧ (entryAt c i).sequence < 2 ^ 64) :
    (entryAt (ops.foldl applyOp c) i).sequence % 2 = 0 ∧
      (entryAt (ops.foldl applyOp c) i).sequence < 2 ^ 64 := by
  induction ops generalizing c with
  | nil => exact hev
  | cons op ops ih =>
    have hsh := applyOp_shape c op
    refine ih (applyOp c op) (by omega) ?_
    rcases applyOp_entry_at c op i hl with h | ⟨-, -, h⟩
    · rw [h]
      exact hev
    · rw [h]
      have hm : (2:Nat) ^ 64 = 18446744073709551616 := by norm_num
      constructor
      · rw [hm] at hev ⊢
        omega
      · rw [hm] at hev ⊢
        omega

theorem applyOp_entry_seq (c : SymbolCache) (op : CacheOp)
    (hg : ¬ c.num_symbols ≤ opIndex op) (hl : opIndex op < c.entries.length) :
    (entryAt (applyOp c op) (opIndex op)).sequence =
      ((entryAt c (opIndex op)).sequence + 2) % 2 ^ 64 := by
  cases op <;>
    simp only [applyOp, opIndex] at hg hl ⊢ <;>
    first
    | (rw [update_quote, if_neg hg, writeOp_entry _ _ _ hg hl])
    | (rw [update_trade, if_neg hg, writeOp_entry _ _ _ hg hl])
    | (rw [update_bid, if_neg hg, writeOp_entry _ _ _ hg hl])
    | (rw [update_ask, if_neg hg, writeOp_entry _ _ _ hg hl])

/-- C4: the seqlock write protocol of `SymbolCache`: with the entry quiescent
(even sequence), `begin_write` stores `s + 1` (odd, write in progress); every
completed writer operation on an in-range symbol leaves the sequence at
`s + 2 mod 2^64` (even again), so each applied update raises the counter by
exactly 2, and any sequence of writer operations keeps quiescent entries
even. -/
theorem C4_seqlock_write_protocol (c : SymbolCache) (i : Nat)
    (hi : i < c.num_symbols) (hl : i < c.entries.length)
    (heven : (entryAt c i).sequence % 2 = 0)
    (hlt : (entryAt c i).sequence < 2 ^ 64) :
    ((entryAt (begin_write c i) i).sequence =
        ((entryAt c i).sequence + 1) % 2 ^ 64 ∧
      (entryAt (begin_write c i) i).sequence % 2 = 1) ∧
    (∀ op : CacheOp, opIndex op = i →
      (entryAt (applyOp c op) i).sequence =
          ((entryAt c i).sequence + 2) % 2 ^ 64 ∧
        (entryAt (applyOp c op) i).sequence % 2 = 0) ∧
    (∀ ops : List CacheOp, (entryAt (ops.foldl applyOp c) i).sequence % 2 = 0) := by
  have hm : (2:Nat) ^ 64 = 18446744073709551616 := by norm_num
  refine ⟨⟨?_, ?_⟩, ?_, ?_⟩
  · rw [begin_write_entry c i (by omega) hl]
  · rw [begin_write_entry c i (by omega) hl]
    show ((entryAt c i).sequence + 1) % 2 ^ 64 % 2 = 1
    rw [hm] at hlt ⊢
    omega
  · intro op hop
    subst hop
    have hseq := applyOp_entry_seq c op (by omega) hl
    refine ⟨hseq, ?_⟩
    rw [hseq, hm] at *
    omega
  · intro ops
    exact (foldl_applyOp_even ops c i hl ⟨heven, hlt⟩).1

/-- Witness for C4: `begin_write` on a fresh single-entry cache leaves the
sequence odd. -/
theorem C4_seqlock_write_protocol_witness :
    (entryAt (begin_write ⟨1, [⟨0, MarketState.init⟩]⟩ 0) 0).sequence % 2 = 1 :=
  (C4_seqlock_write_protocol ⟨1, [⟨0, MarketState.init⟩]⟩ 0 (by decide)
    (by decide) (by decide) (by decide)).1.2

/-- C5 (amended): `update_quote` and `update_trade` set the opening price
exactly when it is still `0.0` (to the quote midpoint / trade price);
`update_bid` and `update_ask` never modify it; all four bump `update_count`
by exactly 1 (as a 64-bit counter) and set `last_update_time`; a nonzero
opening price is never overwritten. -/
theorem C5_opening_price_fields (c : SymbolCache) (i : Nat)
    (hi : i < c.num_symbols) (hl : i < c.entries.length) :
    (∀ bp bq ap aq ts,
      (get_snapshot (update_quote c i bp bq ap aq ts) i).update_count =
        ((get_snapshot c i).update_count + 1) % 2 ^ 64 ∧
      (get_snapshot (update_quote c i bp bq ap aq ts) i).last_update_time = ts ∧
      (get_snapshot (update_quote c i bp bq ap aq ts) i).opening_price =
        (if (get_snapshot c i).opening_price = 0 then (bp + ap) / 2
         else (get_snapshot c i).opening_price)) ∧
    (∀ p q ts,
      (get_snapshot (update_trade c i p q ts) i).update_count =
        ((get_snapshot c i).update_count + 1) % 2 ^ 64 ∧
      (get_snapshot (update_trade c i p q ts) i).last_update_time = ts ∧
      (get_snapshot (update_trade c i p q ts) i).opening_price =
        (if (get_snapshot c i).opening_price = 0 then p
         else (get_snapshot c i).opening_price)) ∧
    (∀ p q ts,
      (get_snapshot (update_bid c i p q ts) i).update_count =
        ((get_snapshot c i).update_count + 1) % 2 ^ 64 ∧
      (get_snapshot (update_bid c i p q ts) i).last_update_time = ts ∧
      (get_snapshot (update_bid c i p q ts) i).opening_price =
        (get_snapshot c i).opening_price) ∧
    (∀ p q ts,
      (get_snapshot (update_ask c i p q ts) i).update_count =
        ((get_snapshot c i).update_count + 1) % 2 ^ 64 ∧
      (get_snapshot (update_ask c i p q ts) i).last_update_time = ts ∧
      (get_snapshot (update_ask c i p q ts) i).opening_price =
        (get_snapshot c i).opening_price) := by
  have hg : ¬ c.num_symbols ≤ i := by omega
  have hsnap : get_snapshot c i = (entryAt c i).state := by
    unfold get_snapshot
    rw [if_neg hg]
  refine ⟨?_, ?_, ?_, ?_⟩
  · intro bp bq ap aq ts
    have hsh := writeOp_shape c i (fun st => quoteUpd st bp bq ap aq ts)
    have hq : get_snapshot (update_quote c i bp bq ap aq ts) i =
        quoteUpd (entryAt c i).state bp bq ap aq ts := by
      unfold update_quote
      rw [if_neg hg]
      unfold get_snapshot
      rw [if_neg (by omega), writeOp_entry c i _ hg hl]
    rw [hq, hsnap]
    unfold quoteUpd
    by_cases hop : (entryAt c i).state.opening_price = 0 <;> simp [hop]
  · intro p q ts
    have hsh := writeOp_shape c i (fun st => tradeUpd st p q ts)
    have hq : get_snapshot (update_trade c i p q ts) i =
        tradeUpd (entryAt c i).state p q ts := by
      unfold update_trade
      rw [if_neg hg]
      unfold get_snapshot
      rw [if_neg (by omega), writeOp_entry c i _ hg hl]
    rw [hq, hsnap]
    unfold tradeUpd
    by_cases hop : (entryAt c i).state.opening_price = 0 <;> simp [hop]
  · intro p q ts
    have hsh := writeOp_shape c i (fun st => bidUpd st p q ts)
    have hq : get_snapshot (update_bid c i p q ts) i =
        bidUpd (entryAt c i).state p q ts := by
      unfold update_bid
      rw [if_neg hg]
      unfold get_snapshot
      rw [if_neg (by omega), writeOp_entry c i _ hg hl]
    rw [hq, hsnap]
    unfold bidUpd
    simp
  · intro p q ts
    have hsh := writeOp_shape c i (fun st => askUpd st p q ts)
    have hq : get_snapshot (update_ask c i p q ts) i =
        askUpd (entryAt c i).state p q ts := by
      unfold update_ask
      rw [if_neg hg]
      unfold get_snapshot
      rw [if_neg (by omega), writeOp_entry c i _ hg hl]
    rw [hq, hsnap]
    unfold askUpd
    simp

/-- Counterexample to C5 as stated: `update_bid` on a fresh entry (opening
price unset, i.e. `0.0`) applies the update (`update_count` becomes 1) but
leaves the opening price at 0 — it does not set it. -/
theorem C5_opening_price_counterexample :
    (get_snapshot (update_bid ⟨1, [⟨0, MarketState.init⟩]⟩ 0 1 100 5) 0).opening_price
        = 0 ∧
    (get_snapshot (update_bid ⟨1, [⟨0, MarketState.init⟩]⟩ 0 1 100 5) 0).update_count
        = 1 ∧
    (1 : Rat) ≠ 0 := by
  refine ⟨by decide, by decide, by norm_num⟩

/-- Witness for the amended C5 at a concrete quote update. -/
theorem C5_opening_price_fields_witness :
    (get_snapshot (update_quote ⟨1, [⟨0, MarketState.init⟩]⟩ 0 10 5 20 7 99) 0).last_update_time
      = 99 :=
  ((C5_opening_price_fields ⟨1, [⟨0, MarketState.init⟩]⟩ 0 (by decide)
    (by decide)).1 10 5 20 7 99).2.1

/-! ## Latency tracker (`latency_tracker.h`, `cache.cpp`)

The histogram is the `NUM_BUCKETS` linear buckets plus the overflow counter.
The raw-sample ring buffer is export-only ("for detailed analysis if
needed") and is not modelled.  The `sum_` counter wraps at `2 ^ 64` (the
C++ comments this overflow as acceptable).  The percentile parameter, a
`double` in the C++, is an exact rational here; at the concrete arguments
used below the C++ arithmetic is exact as well. -/

def NUM_BUCKETS : Nat := 1000
def BUCKET_WIDTH_NS : Nat := 1000
def MAX_TRACKED_NS : Nat := NUM_BUCKETS * BUCKET_WIDTH_NS

structure LatencyTracker where
  histogram : List Nat
  overflow_count : Nat
  sample_count : Nat
  sum : Nat
  min : Nat
  max : Nat
deriving DecidableEq

/-- `LatencyTracker::reset` (also the constructor): all counters zero, `min_`
at the `UINT64_MAX` sentinel. -/
def trackerReset : LatencyTracker :=
  { histogram := List.replicate NUM_BUCKETS 0, overflow_count := 0,
    sample_count := 0, sum := 0, min := 2 ^ 64 - 1, max := 0 }

/-- `LatencyTracker::record`: bump count and sum, lower `min_` / raise
`max_`, and bucket the sample (overflow past `MAX_TRACKED_NS`). -/
def record (t : LatencyTracker) (latency_ns : Nat) : LatencyTracker :=
  { t with
    sample_count := t.sample_count + 1,
    sum := (t.sum + latency_ns) % 2 ^ 64,
    min := if latency_ns < t.min then latency_ns else t.min,
    max := if t.max < latency_ns then latency_ns else t.max,
    histogram :=
      if latency_ns < MAX_TRACKED_NS then
        t.histogram.set (latency_ns / BUCKET_WIDTH_NS)
          ((t.histogram.getD (latency_ns / BUCKET_WIDTH_NS) 0) + 1)
      else t.histogram,
    overflow_count :=
      if latency_ns < MAX_TRACKED_NS then t.overflow_count
      else t.overflow_count + 1 }

/-- The bucket scan of `percentile_from_histogram`: accumulate counts and
return the midpoint of the first bucket where the cumulative count reaches
the target; falling through every bucket yields the observed max. -/
def scanBuckets (hist : List Nat) (idx cumulative target tmax : Nat) : Nat :=
  match hist with
  | [] => tmax
  | c :: rest =>
      if target ≤ cumulative + c then
        idx * BUCKET_WIDTH_NS + BUCKET_WIDTH_NS / 2
      else scanBuckets rest (idx + 1) (cumulative + c) target tmax

/-- The C++ `static_cast<uint64_t>((percentile / 100.0) * total)`:
truncation (floor on these nonnegative values). -/
def targetOf (p : Rat) (total : Nat) : Nat :=
  (((p / 100) * (total : Rat)).floor).toNat

/-- `LatencyTracker::percentile_from_histogram`. -/
def percentile_from_histogram (t : LatencyTracker) (p : Rat) : Nat :=
  if t.sample_count = 0 then 0
  else scanBuckets t.histogram 0 0 (targetOf p t.sample_count) t.max

/-- `LatencyStats` from `latency_tracker.h`, default-initialized as there
(`min = UINT64_MAX`, everything else 0). -/
structure LatencyStats where
  min : Nat
  max : Nat
  mean : Nat
  p50 : Nat
  p95 : Nat
  p99 : Nat
  p999 : Nat
  sample_count : Nat
deriving DecidableEq

def statsDefault : LatencyStats :=
  { min := 2 ^ 64 - 1, max := 0, mean := 0, p50 := 0, p95 := 0, p99 := 0,
    p999 := 0, sample_count := 0 }

/-- `LatencyTracker::get_stats`: with no samples, only `sample_count` and
`min` are assigned before returning the default-initialized struct. -/
def get_stats (t : LatencyTracker) : LatencyStats :=
  if t.sample_count = 0 then
    { statsDefault with sample_count := t.sample_count, min := 0 }
  else
    { statsDefault with
      sample_count := t.sample_count, min := t.min, max := t.max,
      mean := t.sum / t.sample_count,
      p50 := percentile_from_histogram t 50,
      p95 := percentile_from_histogram t 95,
      p99 := percentile_from_histogram t 99,
      p999 := percentile_from_histogram t (999 / 10) }

theorem scanBuckets_miss (hist : List Nat) (idx cum target tmax : Nat)
    (h : cum + hist.sum < target) :
    scanBuckets hist idx cum target tmax = tmax := by
  induction hist generalizing idx cum with
  | nil => rfl
  | cons c rest ih =>
    simp only [List.sum_cons] at h
    unfold scanBuckets
    rw [if_neg (by omega)]
    exact ih (idx + 1) (cum + c) (by omega)

theorem scanBuckets_hit (hist : List Nat) (idx cum target tmax i : Nat)
    (hi : i < hist.length)
    (hhit : target ≤ cum + (hist.take (i + 1)).sum)
    (hmin : ∀ j < i, cum + (hist.take (j + 1)).sum < target) :
    scanBuckets hist idx cum target tmax =
      (idx + i) * BUCKET_WIDTH_NS + BUCKET_WIDTH_NS / 2 := by
  induction hist generalizing idx cum i with
  | nil => simp at hi
  | cons c rest ih =>
    cases i with
    | zero =>
      simp only [List.take_succ_cons, List.take_zero, List.sum_cons,
        List.sum_nil, Nat.add_zero] at hhit
      unfold scanBuckets
      rw [if_pos hhit]
      simp
    | succ k =>
      have h0 := hmin 0 (Nat.succ_pos k)
      simp only [List.take_succ_cons, List.take_zero, List.sum_cons,
        List.sum_nil, Nat.add_zero] at h0
      unfold scanBuckets
      rw [if_neg (by omega)]
      have := ih (idx + 1) (cum + c) k (by simpa using hi)
        (by simpa [Nat.add_assoc] using hhit)
        (fun j hj => by
          have := hmin (j + 1) (by omega)
          simpa [Nat.add_assoc] using this)
      rw [this, show idx + 1 + k = idx + (k + 1) from by omega]

/-- The percentile rule exactly as the claim words it: the target is
`⌈p · total⌉` (ceiling), with the same scan and overflow fallback. -/
def percentileCeilSpec (t : LatencyTracker) (p : Rat) : Nat :=
  if t.sample_count = 0 then 0
  else scanBuckets t.histogram 0 0 (⌈(p / 100) * (t.sample_count : Rat)⌉.toNat) t.max

theorem targetOf_50_3 : targetOf 50 3 = 1 := by
  unfold targetOf
  rw [Rat.floor_def', ← Rat.floor_def]
  norm_num

/-- C6 (amended): the percentile query scans buckets in order, accumulating
counts, and returns the midpoint of the first bucket where the cumulative
count reaches the truncated target `⌊(p/100) · total⌋` (the C++ casts the
floating product to `uint64_t`, which truncates — not the claim's ceiling);
when every bucket falls short of the target, it returns the observed max. -/
theorem C6_percentile_scan (t : LatencyTracker) (p : Rat)
    (hne : t.sample_count ≠ 0) :
    (∀ i < t.histogram.length,
      targetOf p t.sample_count ≤ (t.histogram.take (i + 1)).sum →
      (∀ j < i, (t.histogram.take (j + 1)).sum < targetOf p t.sample_count) →
      percentile_from_histogram t p =
        i * BUCKET_WIDTH_NS + BUCKET_WIDTH_NS / 2) ∧
    (t.histogram.sum < targetOf p t.sample_count →
      percentile_from_histogram t p = t.max) := by
  constructor
  · intro i hi hhit hmin
    unfold percentile_from_histogram
    rw [if_neg hne]
    have := scanBuckets_hit t.histogram 0 0 (targetOf p t.sample_count) t.max i
      hi (by simpa using hhit) (fun j hj => by simpa using hmin j hj)
    simpa using this
  · intro hmiss
    unfold percentile_from_histogram
    rw [if_neg hne]
    exact scanBuckets_miss t.histogram 0 0 _ t.max (by simpa using hmiss)

/-- Counterexample to C6 as stated: samples {500, 1500, 1800} and p = 50.
The code truncates the target to ⌊1.5⌋ = 1 and answers the first bucket's
midpoint 500; the claim's ⌈1.5⌉ = 2 lands in the second bucket (midpoint
1500). -/
theorem C6_percentile_counterexample :
    percentile_from_histogram (record (record (record trackerReset 500) 1500) 1800) 50
        = 500 ∧
    percentileCeilSpec (record (record (record trackerReset 500) 1500) 1800) 50
        = 1500 ∧
    (500 : Nat) ≠ 1500 := by
  refine ⟨?_, ?_, by norm_num⟩
  · unfold percentile_from_histogram
    rw [if_neg (by decide),
      show (record (record (record trackerReset 500) 1500) 1800).sample_count = 3 from rfl,
      targetOf_50_3]
    decide
  · unfold percentileCeilSpec
    rw [if_neg (by decide),
      show (record (record (record trackerReset 500) 1500) 1800).sample_count = 3 from rfl,
      show (⌈(50 / 100 : Rat) * ((3 : Nat) : Rat)⌉.toNat) = 2 from by
        rw [show ⌈(50 / 100 : Rat) * ((3 : Nat) : Rat)⌉ = 2 from by
              rw [Int.ceil_eq_iff]
              constructor <;> norm_num]
        rfl]
    decide

set_option maxRecDepth 10000 in
/-- Witness for the amended C6: the same three samples, hitting bucket 0
under the code's truncated target. -/
theorem C6_percentile_scan_witness :
    percentile_from_histogram (record (record (record trackerReset 500) 1500) 1800) 50
      = 500 := by
  have h := (C6_percentile_scan
    (record (record (record trackerReset 500) 1500) 1800) 50 (by decide)).1
    0 (by decide)
    (by rw [show (record (record (record trackerReset 500) 1500) 1800).sample_count = 3
              from rfl, targetOf_50_3]
        decide)
    (fun j hj => absurd hj (Nat.not_lt_zero j))
  exact h.trans (by decide)

/-- C9: with no samples recorded, `get_stats` returns zeros everywhere —
`sample_count = 0`, `min = 0` (the internal `UINT64_MAX` sentinel is not
exposed), and max, mean and all percentile fields 0. -/
theorem C9_empty_stats (t : LatencyTracker) (h : t.sample_count = 0) :
    get_stats t = ⟨0, 0, 0, 0, 0, 0, 0, 0⟩ := by
  unfold get_stats
  rw [if_pos h, h]
  rfl

/-- Witness for C9 on a freshly reset tracker. -/
theorem C9_empty_stats_witness : get_stats trackerReset = ⟨0, 0, 0, 0, 0, 0, 0, 0⟩ :=
  C9_empty_stats trackerReset rfl

/-! ### Client manager: slow-consumer handling

From `ClientManager` (`client_manager.h` and its implementation) and
`ExchangeSimulator::send_heartbeat`.  Each send is modelled per client: the
kernel is an oracle supplying the `TIOCOUTQ` queue depth read at the top of
`send_to_client` and the result of the single `::send` call; the map lookup
of a connected fd always succeeds, so the per-client functions take the
connection record directly.  `last_activity` and the manager-wide atomic
totals are time- and statistics-only and are not modelled. -/

def SLOW_CONSUMER_THRESHOLD : Nat := 1 * 1024 * 1024

/-- `ClientConnection` from `client_manager.h` (send-path fields). -/
structure ClientConnection where
  fd : Nat
  subscribe_all : Bool
  subscribed_symbols : List Nat
  pending_bytes : Nat
  slow_consumer_count : Nat
  is_slow : Bool
  messages_sent : Nat
  bytes_sent : Nat
deriving DecidableEq

/-- Result of the single `::send(fd, data, len, MSG_NOSIGNAL)`:
`EAGAIN`/`EWOULDBLOCK`, another `errno`, or `n` bytes accepted. -/
inductive SendOutcome
  | wouldBlock
  | error
  | sent (n : Nat)
deriving DecidableEq

/-- `ClientManager::mark_slow_consumer`. -/
def mark_slow_consumer (c : ClientConnection) : ClientConnection :=
  { c with is_slow := true, slow_consumer_count := c.slow_consumer_count + 1 }

/-- `ClientManager::clear_slow_status`. -/
def clear_slow_status (c : ClientConnection) : ClientConnection :=
  { c with is_slow := false }

/-- `ClientManager::send_to_client` on a connected client: record the queue
depth, refuse and mark slow past the threshold `th` (`slow_threshold_`,
default `SLOW_CONSUMER_THRESHOLD`), otherwise call `::send` and mark slow on
would-block or a partial send; after a full send, clear the flag if it was
set and the depth read *before* sending was under `th / 2`. -/
def send_to_client (th : Nat) (c : ClientConnection) (len pending : Nat)
    (out : SendOutcome) : Bool × ClientConnection :=
  if th < pending then
    (false, mark_slow_consumer { c with pending_bytes := pending })
  else
    match out with
    | SendOutcome.wouldBlock =>
        (false, mark_slow_consumer { c with pending_bytes := pending })
    | SendOutcome.error => (false, { c with pending_bytes := pending })
    | SendOutcome.sent n =>
        if n < len then
          (false, mark_slow_consumer { c with pending_bytes := pending })
        else if c.is_slow ∧ pending < th / 2 then
          (true, clear_slow_status { c with pending_bytes := pending })
        else (true, { c with pending_bytes := pending })

/-- One iteration of the `broadcast` loop: skip slow consumers, skip
non-subscribers, otherwise send; on success the message is counted and the
per-client counters advance. -/
def broadcastClient (th len symbol_id pending : Nat) (out : SendOutcome)
    (c : ClientConnection) : Nat × ClientConnection :=
  if c.is_slow then (0, c)
  else if c.subscribe_all = false ∧ c.subscribed_symbols.contains symbol_id = false
  then (0, c)
  else
    match send_to_client th c len pending out with
    | (true, c') =>
        (1, { c' with messages_sent := c'.messages_sent + 1,
                      bytes_sent := c'.bytes_sent + len })
    | (false, c') => (0, c')

/-- `ClientManager::broadcast`: the loop over `clients_`.  Iterations touch
distinct clients, so it is the per-client step mapped over the list with the
success count summed; `env` gives each fd its queue depth and send result. -/
def broadcast (th len symbol_id : Nat) (env : Nat → Nat × SendOutcome)
    (clients : List ClientConnection) : Nat × List ClientConnection :=
  ((clients.map fun c =>
      (broadcastClient th len symbol_id (env c.fd).1 (env c.fd).2 c).1).sum,
   clients.map fun c =>
      (broadcastClient th len symbol_id (env c.fd).1 (env c.fd).2 c).2)

/-- `ExchangeSimulator::send_heartbeat`: `send_to_client` on every fd from
`get_all_client_fds`, with no slow-flag or subscription check, the boolean
result discarded. -/
def send_heartbeat (th len : Nat) (env : Nat → Nat × SendOutcome)
    (clients : List ClientConnection) : List ClientConnection :=
  clients.map fun c => (send_to_client th c len (env c.fd).1 (env c.fd).2).2

theorem getD_map {α β : Type} (f : α → β) (l : List α) (i : Nat)
    (hi : i < l.length) (d : α) (e : β) :
    (l.map f).getD i e = f (l.getD i d) := by
  simp [List.getD_eq_getElem?_getD, List.getElem?_map, List.getElem?_eq_getElem hi]

theorem broadcastClient_slow (th len symbol_id pending : Nat) (out : SendOutcome)
    (c : ClientConnection) (h : c.is_slow = true) :
    broadcastClient th len symbol_id pending out c = (0, c) := by
  simp [broadcastClient, h]

theorem broadcastClient_fst_le (th len symbol_id pending : Nat) (out : SendOutcome)
    (c : ClientConnection) :
    (broadcastClient th len symbol_id pending out c).1 ≤ 1 := by
  unfold broadcastClient
  split
  · exact Nat.zero_le 1
  · split
    · exact Nat.zero_le 1
    · split <;> simp

theorem broadcast_count_le (th len symbol_id : Nat) (env : Nat → Nat × SendOutcome)
    (clients : List ClientConnection) :
    (broadcast th len symbol_id env clients).1
      ≤ (clients.filter fun c => !c.is_slow).length := by
  unfold broadcast
  induction clients with
  | nil => simp
  | cons c rest ih =>
    simp only [List.map_cons, List.sum_cons, List.filter_cons]
    cases hs : c.is_slow with
    | true =>
      rw [broadcastClient_slow th len symbol_id (env c.fd).1 (env c.fd).2 c hs]
      simpa [hs] using ih
    | false =>
      have h1 := broadcastClient_fst_le th len symbol_id (env c.fd).1 (env c.fd).2 c
      simp only [hs, Bool.not_false, if_pos, List.length_cons]
      omega

/-- C8 (amended): `broadcast` skips every entry whose `is_slow` is set — the
entry is returned untouched and contributes nothing to the delivery count,
and the count never exceeds the number of non-slow clients — so a slow
subscriber misses every data broadcast emitted while slow and receives no
backfill.  Heartbeats, however, are pushed through `send_to_client` to every
client, with no slow-flag check. -/
theorem C8_slow_consumer_skip (th len symbol_id : Nat)
    (env : Nat → Nat × SendOutcome) (clients : List ClientConnection)
    (i : Nat) (hi : i < clients.length) (d : ClientConnection)
    (hslow : (clients.getD i d).is_slow = true) :
    (broadcast th len symbol_id env clients).2.getD i d = clients.getD i d ∧
    (broadcast th len symbol_id env clients).1
      ≤ (clients.filter fun c => !c.is_slow).length ∧
    (send_heartbeat th len env clients).getD i d =
      (send_to_client th (clients.getD i d) len (env (clients.getD i d).fd).1
        (env (clients.getD i d).fd).2).2 := by
  refine ⟨?_, broadcast_count_le th len symbol_id env clients, ?_⟩
  · show (clients.map _).getD i d = _
    rw [getD_map _ clients i hi d]
    exact congrArg Prod.snd
      (broadcastClient_slow th len symbol_id _ _ (clients.getD i d) hslow)
  · show (clients.map _).getD i d = _
    rw [getD_map _ clients i hi d]

def cSlow : ClientConnection :=
  { fd := 1, subscribe_all := true, subscribed_symbols := [], pending_bytes := 7,
    slow_consumer_count := 1, is_slow := true, messages_sent := 0, bytes_sent := 0 }

def cZero : ClientConnection :=
  { fd := 0, subscribe_all := true, subscribed_symbols := [], pending_bytes := 0,
    slow_consumer_count := 0, is_slow := false, messages_sent := 0, bytes_sent := 0 }

/-- Counterexample to C8 as stated: heartbeats are not withheld from slow
subscribers.  With one slow client (kernel queue depth 0, full 20-byte send),
`broadcast` leaves it untouched, but `send_heartbeat` hands it the heartbeat
via `send_to_client` — observably, since that call updates its state and
here even clears `is_slow`. -/
theorem C8_counterexample :
    (broadcast SLOW_CONSUMER_THRESHOLD 20 0
        (fun _ => (0, SendOutcome.sent 20)) [cSlow]).2 = [cSlow] ∧
    ((send_heartbeat SLOW_CONSUMER_THRESHOLD 20
        (fun _ => (0, SendOutcome.sent 20)) [cSlow]).getD 0 cZero).is_slow
      = false := by
  constructor
  · decide
  · decide

/-- C7 (amended): `is_slow` is set whenever the queue depth read at the top
of `send_to_client` exceeds the threshold, the send would block, or the send
is partial; it is cleared only by a fully successful send for which that
same pre-send depth — not the depth after sending — is below half the
threshold. -/
theorem C7_slow_flag (th : Nat) (c : ClientConnection) (len pending : Nat)
    (out : SendOutcome) :
    (th < pending → (send_to_client th c len pending out).2.is_slow = true) ∧
    (out = SendOutcome.wouldBlock →
      (send_to_client th c len pending out).2.is_slow = true) ∧
    (∀ n, out = SendOutcome.sent n → n < len →
      (send_to_client th c len pending out).2.is_slow = true) ∧
    ((send_to_client th c len pending out).2.is_slow = false →
      c.is_slow = false ∨
        ((send_to_client th c len pending out).1 = true ∧ pending < th / 2)) := by
  unfold send_to_client mark_slow_consumer clear_slow_status
  refine ⟨fun hp => ?_, fun hw => ?_, fun n hn hpart => ?_, fun hclear => ?_⟩
  · rw [if_pos hp]
  · subst hw
    split
    · rfl
    · rfl
  · subst hn
    split
    · rfl
    · simp [hpart]
  · by_cases hp : th < pending
    · rw [if_pos hp] at hclear
      exact absurd hclear (by simp)
    · rw [if_neg hp] at hclear ⊢
      cases out with
      | wouldBlock => exact absurd hclear (by simp)
      | error => exact Or.inl hclear
      | sent n =>
        dsimp only at hclear ⊢
        by_cases hpart : n < len
        · rw [if_pos hpart] at hclear
          exact absurd hclear (by simp)
        · rw [if_neg hpart] at hclear ⊢
          by_cases hcl : c.is_slow ∧ pending < th / 2
          · rw [if_pos hcl] at hclear ⊢
            exact Or.inr ⟨rfl, hcl.2⟩
          · rw [if_neg hcl] at hclear
            exact Or.inl hclear

/-- Counterexample to C7 as stated: with the flag set and a pre-send queue
depth of 524287, a full 100-byte send clears the flag even though the depth
after sending, 524287 + 100 = 524387, is not below
`SLOW_CONSUMER_THRESHOLD / 2` = 524288: the clear is gated on the depth read
before the send, not after it. -/
theorem C7_counterexample :
    (send_to_client SLOW_CONSUMER_THRESHOLD cSlow 100 524287
        (SendOutcome.sent 100)).1 = true ∧
    (send_to_client SLOW_CONSUMER_THRESHOLD cSlow 100 524287
        (SendOutcome.sent 100)).2.is_slow = false ∧
    ¬ (524287 + 100 < SLOW_CONSUMER_THRESHOLD / 2) := by
  refine ⟨by decide, by decide, by decide⟩

/-- Witness for the amended C7: a depth over the 1 MiB threshold marks the
client slow without sending. -/
theorem C7_slow_flag_witness :
    (send_to_client SLOW_CONSUMER_THRESHOLD cZero 100 2000000
        SendOutcome.error).2.is_slow = true :=
  (C7_slow_flag SLOW_CONSUMER_THRESHOLD cZero 100 2000000
    SendOutcome.error).1 (by decide)

/-- Witness for the amended C8: one slow and one fast client; the broadcast
returns the slow entry unchanged. -/
theorem C8_slow_consumer_skip_witness :
    (broadcast SLOW_CONSUMER_THRESHOLD 32 7
        (fun _ => (0, SendOutcome.sent 32)) [cSlow, cZero]).2.getD 0 cZero
      = cSlow :=
  ((C8_slow_consumer_skip SLOW_CONSUMER_THRESHOLD 32 7
      (fun _ => (0, SendOutcome.sent 32)) [cSlow, cZero] 0 (by decide) cZero
      (by decide)).1).trans (by decide)

/-! ### Memory pool

From `MemoryPool` (`memory_pool.cpp`).  Addresses are `Nat`s: `aligned_base`
is the cache-line-aligned arena start, the free list holds block addresses,
and `allocated_count_` is a `size_t` whose `fetch_add`/`fetch_sub` wrap
modulo `2^64`. -/

structure MemoryPool where
  block_size : Nat
  num_blocks : Nat
  aligned_base : Nat
  free_list : List Nat
  allocated_count : Nat
deriving DecidableEq

/-- `MemoryPool::allocate`: pop the free-list head and bump the count;
`nullptr` (here `none`) on exhaustion. -/
def allocate (pool : MemoryPool) : Option Nat × MemoryPool :=
  match pool.free_list with
  | [] => (none, pool)
  | node :: rest =>
      (some node,
       { pool with free_list := rest,
                   allocated_count := (pool.allocated_count + 1) % 2 ^ 64 })

/-- `MemoryPool::deallocate`: return at once on a null pointer or one
outside `[aligned_base, aligned_base + block_size * num_blocks)`; otherwise
push the block onto the free list and decrement the count (wrapping
`fetch_sub`). -/
def deallocate (pool : MemoryPool) (ptr : Nat) : MemoryPool :=
  if ptr = 0 then pool
  else if ptr < pool.aligned_base ∨
      pool.aligned_base + pool.block_size * pool.num_blocks ≤ ptr then pool
  else
    { pool with free_list := ptr :: pool.free_list,
                allocated_count := (pool.allocated_count + (2 ^ 64 - 1)) % 2 ^ 64 }

/-- C10: `deallocate` of a null pointer or one outside the arena
`[aligned_base, aligned_base + block_size * num_blocks)` is a silent no-op —
free list and allocated count unchanged — while a nonnull pointer inside the
arena is pushed onto the free list and decrements the allocated count
(with `size_t` wrap-around). -/
theorem C10_deallocate_guard (pool : MemoryPool) (ptr : Nat) :
    ((ptr = 0 ∨ ptr < pool.aligned_base ∨
        pool.aligned_base + pool.block_size * pool.num_blocks ≤ ptr) →
      deallocate pool ptr = pool) ∧
    (ptr ≠ 0 → pool.aligned_base ≤ ptr →
      ptr < pool.aligned_base + pool.block_size * pool.num_blocks →
      deallocate pool ptr =
        { pool with free_list := ptr :: pool.free_list,
                    allocated_count :=
                      (pool.allocated_count + (2 ^ 64 - 1)) % 2 ^ 64 }) := by
  constructor
  · intro h
    unfold deallocate
    split_ifs with h1 h2
    · rfl
    · rfl
    · exact absurd h (by push_neg; exact ⟨h1, by omega⟩)
  · intro h0 hlo hhi
    unfold deallocate
    rw [if_neg h0, if_neg (by omega)]

/-- Witness for C10: in a pool with arena `[1024, 1280)`, deallocating 5000
is a no-op and deallocating 1100 pushes the block and decrements the
wrapped count. -/
theorem C10_deallocate_guard_witness :
    deallocate ⟨64, 4, 1024, [], 3⟩ 5000 = ⟨64, 4, 1024, [], 3⟩ ∧
    deallocate ⟨64, 4, 1024, [], 3⟩ 1100 =
      ⟨64, 4, 1024, [1100], (3 + (2 ^ 64 - 1)) % 2 ^ 64⟩ :=
  ⟨(C10_deallocate_guard ⟨64, 4, 1024, [], 3⟩ 5000).1
      (Or.inr (Or.inr (by decide))),
   (C10_deallocate_guard ⟨64, 4, 1024, [], 3⟩ 1100).2
      (by decide) (by decide) (by decide)⟩

end MDF
